import Mathlib

/-!
Shallow embedding of the rdb snapshot parser (github.com/matthewjhe/rdb).

Go source mapping:
* `MemReader` and its read operations mirror `MemReader` in the reader file
  (Discard, ReadByte, ReadBytes, readString, little16/32/64, big32/64).
* `allocSpec`, `jemalloc`, `alloc`, `hashEntry`, `rootSize`, `expiryOverhead`,
  `top` mirror `allocSpec` and the `overhead` methods of util.go.
* `readLZF`, `readZipmapEntry`, `readZipmap`, `readIntset` mirror the
  functions of the same names in util.go.
* `readLength`, `readRawBytes`, `readCompressed`, `readRawString`,
  `readValue`, `readDouble`, and the driver model `parseSim` mirror the
  `Parser` methods of the parser file.

Conventions: bytes are `Nat` values below 256; byte strings are `List Nat`;
Go's 64-bit `int` is modelled as `Int` where a value can be negative and as
`Nat` where it provably cannot; Go runtime panics (index out of range,
`make` with negative length) are modelled as the distinguished error
`RErr.goPanic`; unbounded `for` loops are modelled with an explicit fuel
argument large enough that exhaustion (`RErr.fuelExhausted`) is unreachable
on the runs any theorem below talks about.
-/

/-- Errors of the parser, plus `goPanic` for Go runtime panics and
`fuelExhausted` for the fuel encoding of unbounded loops. -/
inductive RErr where
  | unexpectedEOF
  | invalidRDB
  | unsupportedRDB
  | invalidZipmapEntry
  | invalidLengthEncoding
  | invalidCompressedData
  | atoiSyntax
  | goPanic
  | fuelExhausted
deriving DecidableEq

/-- Two's-complement reading of a `Nat` below `2^8` as Go's `int8`. -/
def toInt8 (u : Nat) : Int :=
  if u < 2 ^ 7 then (u : Int) else (u : Int) - 2 ^ 8

/-- Two's-complement reading of a `Nat` below `2^16` as Go's `int16`. -/
def toInt16 (u : Nat) : Int :=
  if u < 2 ^ 15 then (u : Int) else (u : Int) - 2 ^ 16

/-- Two's-complement reading of a `Nat` below `2^32` as Go's `int32`. -/
def toInt32 (u : Nat) : Int :=
  if u < 2 ^ 31 then (u : Int) else (u : Int) - 2 ^ 32

/-- Two's-complement reading of a `Nat` below `2^64` as Go's `int64`. -/
def toInt64 (u : Nat) : Int :=
  if u < 2 ^ 63 then (u : Int) else (u : Int) - 2 ^ 64

/-- `MemReader` of the reader file: a byte slice and a cursor. -/
structure MemReader where
  b : List Nat
  i : Nat
deriving DecidableEq

/-- Go `r.i += n`. The Go index is a signed int and a negative `n` could
drive it negative (making the next slice expression panic); no code path a
theorem below exercises discards a negative count, so the clamp of `toNat`
is never observable there. -/
def MemReader.Discard (r : MemReader) (n : Int) : MemReader :=
  MemReader.mk r.b ((r.i : Int) + n).toNat

/-- Go `MemReader.ReadByte`: `if 1 > len(r.b[r.i:])` fails with unexpected
EOF; the slice expression itself panics when the cursor is past the end. -/
def MemReader.ReadByte (r : MemReader) : Except RErr (Nat × MemReader) :=
  if r.b.length < r.i then .error .goPanic
  else if r.b.length - r.i < 1 then .error .unexpectedEOF
  else .ok (r.b.getD r.i 0, MemReader.mk r.b (r.i + 1))

/-- Go `MemReader.ReadBytes(n)`: `if n > len(r.b[r.i:])` fails with
unexpected EOF, then `r.b[r.i-n : r.i]` is returned (patently a panic when
`n` is negative, since the slice bounds are inverted). -/
def MemReader.ReadBytes (r : MemReader) (n : Int) : Except RErr (List Nat × MemReader) :=
  if r.b.length < r.i then .error .goPanic
  else if n > ((r.b.length - r.i : Nat) : Int) then .error .unexpectedEOF
  else if n < 0 then .error .goPanic
  else .ok ((r.b.drop r.i).take n.toNat, MemReader.mk r.b (r.i + n.toNat))

/-- Go `MemReader.readString(n)`: `ReadBytes` then the byte view as a string
(strings stay byte lists here). -/
def MemReader.readString (r : MemReader) (n : Int) : Except RErr (List Nat × MemReader) :=
  r.ReadBytes n

/-- Go `MemReader.little16`. -/
def MemReader.little16 (r : MemReader) : Except RErr (Int × MemReader) := do
  let (bs, r) ← r.ReadBytes 2
  .ok (toInt16 (bs.getD 0 0 + 2 ^ 8 * bs.getD 1 0), r)

/-- Go `MemReader.little32`. -/
def MemReader.little32 (r : MemReader) : Except RErr (Int × MemReader) := do
  let (bs, r) ← r.ReadBytes 4
  .ok (toInt32 (bs.getD 0 0 + 2 ^ 8 * bs.getD 1 0 + 2 ^ 16 * bs.getD 2 0 + 2 ^ 24 * bs.getD 3 0), r)

/-- Go `MemReader.little64`. -/
def MemReader.little64 (r : MemReader) : Except RErr (Int × MemReader) := do
  let (bs, r) ← r.ReadBytes 8
  .ok (toInt64 (bs.getD 0 0 + 2 ^ 8 * bs.getD 1 0 + 2 ^ 16 * bs.getD 2 0 + 2 ^ 24 * bs.getD 3 0
    + 2 ^ 32 * bs.getD 4 0 + 2 ^ 40 * bs.getD 5 0 + 2 ^ 48 * bs.getD 6 0 + 2 ^ 56 * bs.getD 7 0), r)

/-- Go `MemReader.big32`. -/
def MemReader.big32 (r : MemReader) : Except RErr (Int × MemReader) := do
  let (bs, r) ← r.ReadBytes 4
  .ok (toInt32 (2 ^ 24 * bs.getD 0 0 + 2 ^ 16 * bs.getD 1 0 + 2 ^ 8 * bs.getD 2 0 + bs.getD 3 0), r)

/-- Go `MemReader.big64`. -/
def MemReader.big64 (r : MemReader) : Except RErr (Int × MemReader) := do
  let (bs, r) ← r.ReadBytes 8
  .ok (toInt64 (2 ^ 56 * bs.getD 0 0 + 2 ^ 48 * bs.getD 1 0 + 2 ^ 40 * bs.getD 2 0
    + 2 ^ 32 * bs.getD 3 0 + 2 ^ 24 * bs.getD 4 0 + 2 ^ 16 * bs.getD 5 0
    + 2 ^ 8 * bs.getD 6 0 + bs.getD 7 0), r)

/-- The fixed jemalloc size-class table `allocSpec` of util.go, all 239
entries verbatim (the spec speaks of 236 entries; the Go table has 239). -/
def allocSpec : List Nat := [
  8, 16, 24, 32, 40, 48, 56, 64, 80, 96, 112, 128, 160, 192, 224, 256, 320, 384, 448, 512, 640, 768, 896, 1024,
  1280, 1536, 1792, 2048, 2560, 3072, 3584, 4096, 5120, 6144, 7168, 8192, 10240, 12288, 14336, 16384, 20480, 24576,
  28672, 32768, 40960, 49152, 57344, 65536, 81920, 98304, 114688, 131072, 163840, 196608, 229376, 262144, 327680,
  393216, 458752, 524288, 655360, 786432, 917504, 1048576, 1310720, 1572864, 1835008, 2097152, 2621440, 3145728,
  3670016, 4194304, 5242880, 6291456, 7340032, 8388608, 10485760, 12582912, 14680064, 16777216, 20971520, 25165824,
  29360128, 33554432, 41943040, 50331648, 58720256, 67108864, 83886080, 100663296, 117440512, 134217728, 167772160,
  201326592, 234881024, 268435456, 335544320, 402653184, 469762048, 536870912, 671088640, 805306368, 939524096,
  1073741824, 1342177280, 1610612736, 1879048192, 2147483648, 2684354560, 3221225472, 3758096384, 4294967296,
  5368709120, 6442450944, 7516192768, 8589934592, 10737418240, 12884901888, 15032385536, 17179869184, 21474836480,
  25769803776, 30064771072, 34359738368, 42949672960, 51539607552, 60129542144, 68719476736, 85899345920,
  103079215104, 120259084288, 137438953472, 171798691840, 206158430208, 240518168576, 274877906944, 343597383680,
  412316860416, 481036337152, 549755813888, 687194767360, 824633720832, 962072674304, 1099511627776, 1374389534720,
  1649267441664, 1924145348608, 2199023255552, 2748779069440, 3298534883328, 3848290697216, 4398046511104,
  5497558138880, 6597069766656, 7696581394432, 8796093022208, 10995116277760, 13194139533312, 15393162788864,
  17592186044416, 21990232555520, 26388279066624, 30786325577728, 35184372088832, 43980465111040, 52776558133248,
  61572651155456, 70368744177664, 87960930222080, 105553116266496, 123145302310912, 140737488355328, 175921860444160,
  211106232532992, 246290604621824, 281474976710656, 351843720888320, 422212465065984, 492581209243648,
  562949953421312, 703687441776640, 844424930131968, 985162418487296, 1125899906842624, 1407374883553280,
  1688849860263936, 1970324836974592, 2251799813685248, 2814749767106560, 3377699720527872, 3940649673949184,
  4503599627370496, 5629499534213120, 6755399441055744, 7881299347898368, 9007199254740992, 11258999068426240,
  13510798882111488, 15762598695796736, 18014398509481984, 22517998136852480, 27021597764222976, 31525197391593472,
  36028797018963968, 45035996273704960, 54043195528445952, 63050394783186944, 72057594037927936, 90071992547409920,
  108086391056891904, 126100789566373888, 144115188075855872, 180143985094819840, 216172782113783808,
  252201579132747776, 288230376151711744, 360287970189639680, 432345564227567616, 504403158265495552,
  576460752303423488, 720575940379279360, 864691128455135232, 1008806316530991104, 1152921504606846976,
  1441151880758558720, 1729382256910270464, 2017612633061982208, 2305843009213693952, 2882303761517117440,
  3458764513820540928, 4035225266123964416, 4611686018427387904, 5764607523034234880, 6917529027641081856,
  8070450532247928832, 9223372036854775808, 11529215046068469760, 13835058055282163712, 16140901064495857664]

/-- The loop of Go's `sort.Search`, with fuel: the interval `[i, j)` shrinks
strictly each round, so fuel `j - i` at entry always suffices. `h` is
`int(uint(i+j) >> 1)`, which is `(i+j)/2` for the in-range arguments Go ever
produces here. -/
def searchLoop : Nat → Nat → Nat → (Nat → Bool) → Nat
  | 0, i, _, _ => i
  | fuel + 1, i, j, f =>
    if i < j then
      let h := (i + j) / 2
      if f h then searchLoop fuel i h f else searchLoop fuel (h + 1) j f
    else i

/-- Go `sort.Search(n, f)`. -/
def sortSearch (n : Nat) (f : Nat → Bool) : Nat :=
  searchLoop n 0 n f

/-- Go `overhead.jemalloc(size)`: `sort.Search` over `allocSpec` for the
first entry at least `uint64(size)`, then the dead guard `i > len(allocSpec)`
and the (panicking, when `i = len(allocSpec)`) index `allocSpec[i]`. -/
def jemalloc (size : Int) : Except RErr Nat :=
  let target : Nat := (size % (2 : Int) ^ 64).toNat
  let i := sortSearch allocSpec.length (fun k => decide (target ≤ allocSpec.getD k 0))
  if allocSpec.length < i then .ok target
  else
    match allocSpec.get? i with
    | some v => .ok v
    | none => .error .goPanic


deriving instance DecidableEq for Except

set_option maxRecDepth 8000

/-- Characterization of Go's `sort.Search` loop: with enough fuel and a
predicate monotone below `n`, the result `r` lies in `[i, j]`, everything
in `[i, r)` is false, and `r` itself is true when `r < j`. -/
theorem searchLoop_spec (n : Nat) (f : Nat → Bool)
    (hmono : ∀ a b, a ≤ b → b < n → f a = true → f b = true) :
    ∀ fuel i j, j - i ≤ fuel → i ≤ j → j ≤ n →
      i ≤ searchLoop fuel i j f ∧ searchLoop fuel i j f ≤ j ∧
      (∀ k, i ≤ k → k < searchLoop fuel i j f → f k = false) ∧
      (searchLoop fuel i j f < j → f (searchLoop fuel i j f) = true) := by
  intro fuel
  induction fuel with
  | zero =>
    intro i j hfu hij hjn
    have hji : j = i := by omega
    subst hji
    simp only [searchLoop]
    refine ⟨le_refl _, le_refl _, ?_, ?_⟩
    · intro k hk1 hk2; omega
    · intro hl2; omega
  | succ m ih =>
    intro i j hfu hij hjn
    by_cases hlt : i < j
    · have hh : (i + j) / 2 < j := by omega
      have hh2 : i ≤ (i + j) / 2 := by omega
      cases hf : f ((i + j) / 2) with
      | true =>
        have hrec := ih i ((i + j) / 2) (by omega) (by omega) (by omega)
        have heq : searchLoop (m + 1) i j f = searchLoop m i ((i + j) / 2) f := by
          simp [searchLoop, hlt, hf]
        rw [heq]
        rcases hrec with ⟨h1, h2, h3, h4⟩
        refine ⟨h1, by omega, h3, ?_⟩
        intro hr
        by_cases hr2 : searchLoop m i ((i + j) / 2) f < (i + j) / 2
        · exact h4 hr2
        · have heq : searchLoop m i ((i + j) / 2) f = (i + j) / 2 := by omega
          rw [heq]; exact hf
      | false =>
        have hrec := ih ((i + j) / 2 + 1) j (by omega) (by omega) (by omega)
        have heq : searchLoop (m + 1) i j f = searchLoop m ((i + j) / 2 + 1) j f := by
          simp [searchLoop, hlt, hf]
        rw [heq]
        rcases hrec with ⟨h1, h2, h3, h4⟩
        refine ⟨by omega, h2, ?_, h4⟩
        intro k hk1 hk2
        by_cases hk3 : (i + j) / 2 + 1 ≤ k
        · exact h3 k hk3 hk2
        · have hk4 : k ≤ (i + j) / 2 := by omega
          cases hfk : f k with
          | false => rfl
          | true =>
            have := hmono k ((i + j) / 2) hk4 (by omega) hfk
            rw [this] at hf
            exact absurd hf (by simp)
    · have hji : j = i := by omega
      subst hji
      simp only [searchLoop, if_neg hlt]
      refine ⟨le_refl _, le_refl _, ?_, ?_⟩
      · intro k hk1 hk2; omega
      · intro hl2; omega

/-- The size-class table is nondecreasing between adjacent entries. -/
theorem allocSpec_step : ∀ i < 238, allocSpec.getD i 0 ≤ allocSpec.getD (i + 1) 0 := by decide

/-- Positional monotonicity of `allocSpec` through `getD`. -/
theorem allocSpec_getD_mono : ∀ a b, a ≤ b → b < allocSpec.length →
    allocSpec.getD a 0 ≤ allocSpec.getD b 0 := by
  have hlen : allocSpec.length = 239 := by decide
  intro a b hab hb
  induction b with
  | zero =>
    have : a = 0 := by omega
    simp [this]
  | succ k ih =>
    rcases Nat.eq_or_lt_of_le hab with h | h
    · rw [h]
    · exact le_trans (ih (by omega) (by omega)) (allocSpec_step k (by omega))

/-- In-table behavior of `jemalloc`: for any request not past the largest
class, it returns the least table entry at least the request. -/
theorem jemalloc_rounds (size : Nat) (h : size ≤ 16140901064495857664) :
    ∃ v, jemalloc (size : Int) = .ok v ∧ v ∈ allocSpec ∧ size ≤ v ∧
      ∀ w ∈ allocSpec, size ≤ w → v ≤ w := by
  have htarget : (((size : Int) % (2 : Int) ^ 64).toNat) = size := by
    rw [Int.emod_eq_of_lt (by omega) (by norm_num; omega)]
    exact Int.toNat_natCast size
  have hlen : allocSpec.length = 239 := by decide
  have hmono : ∀ a b, a ≤ b → b < allocSpec.length →
      (decide (size ≤ allocSpec.getD a 0)) = true → (decide (size ≤ allocSpec.getD b 0)) = true := by
    intro a b hab hb hfa
    simp only [decide_eq_true_eq] at hfa ⊢
    exact le_trans hfa (allocSpec_getD_mono a b hab hb)
  have hspec := searchLoop_spec allocSpec.length
    (fun k => decide (size ≤ allocSpec.getD k 0)) hmono allocSpec.length 0 allocSpec.length
    (by omega) (by omega) (by omega)
  rcases hspec with ⟨_, h2, h3, h4⟩
  set r := searchLoop allocSpec.length 0 allocSpec.length
    (fun k => decide (size ≤ allocSpec.getD k 0)) with hr
  have hsort : sortSearch allocSpec.length (fun k => decide (size ≤ allocSpec.getD k 0)) = r := rfl
  have hlast : allocSpec.getD 238 0 = 16140901064495857664 := by decide
  have hf238 : (decide (size ≤ allocSpec.getD 238 0)) = true := by
    simp only [decide_eq_true_eq, hlast]; exact h
  have hrlt : r < allocSpec.length := by
    by_contra hge
    have hreq : r = allocSpec.length := by omega
    have h238 : decide (size ≤ allocSpec.getD 238 0) = false := h3 238 (by omega) (by omega)
    rw [hf238] at h238
    exact absurd h238 (by simp)
  have hfr : (decide (size ≤ allocSpec.getD r 0)) = true := h4 hrlt
  simp only [decide_eq_true_eq] at hfr
  refine ⟨allocSpec.getD r 0, ?_, ?_, hfr, ?_⟩
  · unfold jemalloc
    simp only [htarget, hsort]
    rw [if_neg (by omega)]
    rw [List.get?_eq_getElem?, List.getElem?_eq_getElem hrlt]
    rw [List.getD_eq_getElem _ _ hrlt]
  · rw [List.getD_eq_getElem _ _ hrlt]
    exact List.getElem_mem _
  · intro w hw hsw
    rcases List.getElem_of_mem hw with ⟨k, hk, hkw⟩
    by_cases hkr : k < r
    · have hkf : decide (size ≤ allocSpec.getD k 0) = false := h3 k (by omega) hkr
      simp only [decide_eq_false_iff_not, not_le] at hkf
      rw [List.getD_eq_getElem _ _ hk, hkw] at hkf
      omega
    · have := allocSpec_getD_mono r k (by omega) hk
      rw [List.getD_eq_getElem _ _ hk, hkw] at this
      exact this

/-- C3: refuted as stated. `jemalloc` does return the least table entry at
or above the request while one exists (see `jemalloc_rounds`), but for a
request past the largest class (16140901064495857664) `sort.Search` returns
`len(allocSpec)`, the guard `i > len(allocSpec)` is dead (it tests `>`
where `>=` was meant), and `allocSpec[i]` panics with an index out of
range, so the function is not total and never returns the request itself. -/
theorem jemalloc_out_of_table_panics :
    jemalloc 16140901064495857665 = .error .goPanic ∧
    jemalloc 16140901064495857664 = .ok 16140901064495857664 := by
  constructor <;> decide

/-- Parse strategy flags (`1 << iota` in the parser file). -/
def SkipMeta : Nat := 1

/-- Strategy flag `SkipExpiry`. -/
def SkipExpiry : Nat := 2

/-- Strategy flag `SkipValue`. -/
def SkipValue : Nat := 4

/-- Strategy flag `SkipAll`. -/
def SkipAll : Nat := 8

/-- Redis value encoding `EncodingString`. -/
def EncodingString : Nat := 0

/-- Redis value encoding `EncodingList`. -/
def EncodingList : Nat := 1

/-- Redis value encoding `EncodingSet`. -/
def EncodingSet : Nat := 2

/-- Redis value encoding `EncodingSortedSet`. -/
def EncodingSortedSet : Nat := 3

/-- Redis value encoding `EncodingHash`. -/
def EncodingHash : Nat := 4

/-- Redis value encoding `EncodingSortedSet2`. -/
def EncodingSortedSet2 : Nat := 5

/-- Redis value encoding `EncodingZipmap`. -/
def EncodingZipmap : Nat := 9

/-- Redis value encoding `EncodingZiplist`. -/
def EncodingZiplist : Nat := 10

/-- Redis value encoding `EncodingIntset`. -/
def EncodingIntset : Nat := 11

/-- Redis value encoding `EncodingSortedSetZip`. -/
def EncodingSortedSetZip : Nat := 12

/-- Redis value encoding `EncodingHashZip`. -/
def EncodingHashZip : Nat := 13

/-- Redis value encoding `EncodingQuicklist`. -/
def EncodingQuicklist : Nat := 14

/-- Go `overhead.arch()` (64-bit only). -/
def arch : Nat := 8

/-- Go `overhead.hashEntry()`: two pointers plus an int64. -/
def hashEntry : Nat := 2 * arch + 8

/-- Go `overhead.root()`. -/
def rootSize : Nat := arch + 8

/-- Go `overhead.expiry(expiry)`: nothing without an expiry (negative
sentinel), else a dictionary entry plus the 8-byte timestamp. -/
def expiryOverhead (expiry : Int) : Nat :=
  if expiry < 0 then 0 else hashEntry + 8

/-- Go `overhead.top(expiry)`. -/
def top (expiry : Int) : Nat :=
  hashEntry + rootSize + expiryOverhead expiry

/-- Go `overhead.alloc(l)`: the sds header grows with the length. The Go
argument is an int; every caller passes a length that already fit in a
slice, hence nonnegative. -/
def alloc (l : Int) : Except RErr Nat :=
  if l < 2 ^ 5 then jemalloc (l + 2)
  else if l < 2 ^ 8 then jemalloc (l + 2 + 2)
  else if l < 2 ^ 16 then jemalloc (l + 2 + 4)
  else if l < 2 ^ 32 then jemalloc (l + 2 + 8)
  else jemalloc (l + 2 + 16)

/-- Decimal ASCII digits of a natural number, most significant first
(fuelled division loop; `n + 1` fuel always suffices). -/
def natDecimalAux : Nat → Nat → List Nat
  | 0, _ => []
  | fuel + 1, n => if n < 10 then [48 + n] else natDecimalAux fuel (n / 10) ++ [48 + n % 10]

/-- Decimal ASCII digits of a natural number. -/
def natDecimal (n : Nat) : List Nat := natDecimalAux (n + 1) n

/-- Go `strconv.AppendInt(buf, v, 10)`: the decimal ASCII form of `v`,
with a leading minus sign for negative values. -/
def decimalBytesOfInt (v : Int) : List Nat :=
  if v < 0 then 45 :: natDecimal v.natAbs else natDecimal v.toNat

/-- Byte 48 ('0') through 57 ('9'). -/
def isDigitB (c : Nat) : Bool := 48 ≤ c && c ≤ 57

/-- Body of the `isInt` regular expression without the optional sign:
`0|[1-9][0-9]*` anchored at both ends. -/
def isIntCore : List Nat → Bool
  | [] => false
  | c :: rest => if c = 48 then rest.isEmpty else (49 ≤ c && c ≤ 57) && rest.all isDigitB

/-- Go `isInt.Match(bs)` for the anchored pattern
`^(?:[-+]?(?:0|[1-9][0-9]*))$` (ASCII only, which is all the digit classes
can match). -/
def isIntMatch (bs : List Nat) : Bool :=
  match bs with
  | [] => false
  | c :: rest => if c = 43 || c = 45 then isIntCore rest else isIntCore (c :: rest)

/-- The mutable pieces of Go's `Parser` that the embedded operations touch:
the reader, the per-record transient `state` (skip, compressed, memory),
the `strategy` pair (running, global) and `sizeint`. `memory` is a uint64
counter; the wrap at `2^64` is unreachable for the inputs below and is not
modelled. -/
structure PState where
  r : MemReader
  skip : Bool
  compressed : Bool
  memory : Nat
  running : Nat
  global : Nat
  sizeint : Nat
deriving DecidableEq

/-- A fresh parser over a byte list, as `Parse` builds it (`sizeint = 8`,
zero strategy unless `WithStrategy` set one). -/
def PState.fresh (bytes : List Nat) : PState :=
  PState.mk (MemReader.mk bytes 0) false false 0 0 0 8

/-- Go `Parser.setStrategy`. -/
def PState.setStrategy (p : PState) (strategy : Nat) : PState :=
  { p with global := strategy, running := strategy }

/-- Go `Parser.clearstate`. -/
def PState.clearstate (p : PState) : PState :=
  { p with memory := 0, skip := false, compressed := false,
           running := p.global, sizeint := 8 }

/-- Go `Parser.skipStage(strategies...)`: sets the transient skip bit when
any given flag intersects the running strategy, and reports it. -/
def PState.skipStage (p : PState) (strategies : List Nat) : Bool × PState :=
  let hit := strategies.any (fun s => p.running &&& s ≠ 0)
  (hit, { p with skip := hit })

/-- Go `Parser.getMemory`. -/
def PState.getMemory (p : PState) : Nat × PState :=
  (p.memory, { p with memory := 0 })

/-- `Parser.ReadByte` via the reader. -/
def PState.readByte (p : PState) : Except RErr (Nat × PState) := do
  let (b, r) ← p.r.ReadByte
  .ok (b, { p with r := r })

/-- `Parser.ReadBytes` via the reader. -/
def PState.readBytes (p : PState) (n : Int) : Except RErr (List Nat × PState) := do
  let (bs, r) ← p.r.ReadBytes n
  .ok (bs, { p with r := r })

/-- Go `Parser.readString(n)` (bytes kept as a byte list). -/
def PState.readString (p : PState) (n : Int) : Except RErr (List Nat × PState) :=
  p.readBytes n

/-- `Parser.little16` via the reader. -/
def PState.little16 (p : PState) : Except RErr (Int × PState) := do
  let (v, r) ← p.r.little16
  .ok (v, { p with r := r })

/-- `Parser.little32` via the reader. -/
def PState.little32 (p : PState) : Except RErr (Int × PState) := do
  let (v, r) ← p.r.little32
  .ok (v, { p with r := r })

/-- `Parser.little64` via the reader. -/
def PState.little64 (p : PState) : Except RErr (Int × PState) := do
  let (v, r) ← p.r.little64
  .ok (v, { p with r := r })

/-- `Parser.big32` via the reader. -/
def PState.big32 (p : PState) : Except RErr (Int × PState) := do
  let (v, r) ← p.r.big32
  .ok (v, { p with r := r })

/-- `Parser.big64` via the reader. -/
def PState.big64 (p : PState) : Except RErr (Int × PState) := do
  let (v, r) ← p.r.big64
  .ok (v, { p with r := r })

/-- `Parser.Discard` via the reader. -/
def PState.discard (p : PState) (n : Int) : PState :=
  { p with r := p.r.Discard n }

/-- Go `Parser.readLength(withEncoding)`: the variable-length prefix.
`0x80`/`0x81` announce big-endian 32/64-bit lengths; top bits `00` a 6-bit
length, `01` a 14-bit length, `11` a special encoding tag when allowed.
Top bits `10` fall through to `ErrInvalidLengthEncoding`. -/
def readLength (withEncoding : Bool) (p : PState) : Except RErr (Int × Bool × PState) := do
  let (first, p) ← p.readByte
  if first = 0x80 then do
    let (i32, p) ← p.big32
    .ok (i32, false, p)
  else if first = 0x81 then do
    let (i64, p) ← p.big64
    .ok (i64, false, p)
  else if first >>> 6 = 0 then
    .ok (((first &&& 0x3f : Nat) : Int), false, p)
  else if first >>> 6 = 1 then do
    let (next, p) ← p.readByte
    .ok ((((next ||| ((first &&& 0x3f) <<< 8) : Nat)) : Int), false, p)
  else if first >>> 6 = 3 then
    if withEncoding then .ok (((first &&& 0x3f : Nat) : Int), true, p)
    else .error .invalidLengthEncoding
  else .error .invalidLengthEncoding

/-- Go `copy(out[op:op+k], buf[ip:ip+k])` for the literal run of `readLZF`:
the callers guarantee `op + src.length ≤ out.length`. -/
def lzfLiteral (out : List Nat) (op : Nat) (src : List Nat) : List Nat :=
  out.take op ++ src ++ out.drop (op + src.length)

/-- The byte-by-byte back-reference copy of `readLZF`
(`out[op+i] = out[ref+i]` for `i` up to the length): each write is visible
to the later reads, so self-overlapping runs expand like RLE. -/
def lzfCopy : Nat → Nat → Nat → List Nat → List Nat
  | 0, _, _, out => out
  | k + 1, ref, op, out => lzfCopy k (ref + 1) (op + 1) (out.set op (out.getD ref 0))

/-- The main loop of Go `readLZF`. Control byte below 32: a literal run of
`ctrl+1` bytes, bounds-checked against input and output. Otherwise a
back-reference: length base `ctrl >> 5` (7 adds an extension byte — read
before the `ip >= clen` check, hence a panic when the control byte was the
last input byte), offset byte read with no check at all (a panic when past
the input), then the checked `op+length > ulen || ref < 0` guard and the
overlapping copy. Each round consumes at least one input byte, so fuel
`clen + 1` never runs out. -/
def readLZFLoop : Nat → List Nat → Nat → Nat → Nat → Nat → List Nat → Except RErr (List Nat)
  | 0, _, _, _, _, _, _ => .error .fuelExhausted
  | fuel + 1, buf, clen, ulen, ip, op, out =>
    if ip < clen then
      let ctrl := buf.getD ip 0
      let ip := ip + 1
      if ctrl < 32 then
        let ctrl := ctrl + 1
        if ctrl + ip > clen || ctrl + op > ulen then .error .invalidCompressedData
        else readLZFLoop fuel buf clen ulen (ip + ctrl) (op + ctrl)
          (lzfLiteral out op ((buf.drop ip).take ctrl))
      else
        let length := ctrl >>> 5
        let ref : Int := (op : Int) - (((ctrl &&& 0x1f) <<< 8 : Nat) : Int) - 1
        (do
          let (length, ip) ←
            if length = 7 then
              if ip < buf.length then
                let length := length + buf.getD ip 0
                let ip := ip + 1
                if ip ≥ clen then Except.error RErr.invalidCompressedData
                else Except.ok (length, ip)
              else Except.error RErr.goPanic
            else Except.ok (length, ip)
          if ip < buf.length then
            let ref := ref - (buf.getD ip 0 : Int)
            let ip := ip + 1
            let length := length + 2
            if op + length > ulen || ref < 0 then Except.error RErr.invalidCompressedData
            else
              let out2 := lzfCopy length ref.toNat op out
              readLZFLoop fuel buf clen ulen ip (op + length) out2
          else Except.error RErr.goPanic)
    else .ok (out.take op)

/-- Go `readLZF(buf, clen, ulen)`: `clen > len(buf)` silently yields a nil
slice and no error; otherwise decompress into a fresh `ulen`-byte output
and return its first `op` bytes. A negative `ulen` makes Go's
`make([]byte, ulen)` panic; `clen` is `len(buf)` at every call site, so the
loop's `clen` is a plain natural. -/
def readLZF (buf : List Nat) (clen ulen : Int) : Except RErr (Option (List Nat)) :=
  if clen > (buf.length : Int) then .ok none
  else if ulen < 0 then .error .goPanic
  else do
    let out ← readLZFLoop (clen.toNat + 1) buf clen.toNat ulen.toNat 0 0
      (List.replicate ulen.toNat 0)
    .ok (some out)

/-- Go `Parser.readCompressed(memory)`: compressed length, uncompressed
length, memory charged for the uncompressed length, then either an
in-stream discard (skip) or the compressed bytes, flagged for the worker. -/
def readCompressed (memory : Bool) (p : PState) : Except RErr (Option (List Nat) × Int × PState) := do
  let (clen, _, p) ← readLength false p
  let (ulen, _, p) ← readLength false p
  let p ←
    if memory then do
      let a ← alloc ulen
      Except.ok { p with memory := p.memory + a }
    else Except.ok p
  if p.skip then
    .ok (none, ulen, p.discard clen)
  else do
    let (buf, p) ← p.readBytes clen
    .ok (some buf, ulen, { p with compressed := true })

/-- Go `Parser.readRawBytes(memory)`. A plain length reads that many bytes;
with accounting on, a short integer-looking string costs `sizeint` and any
other string the allocator-rounded `alloc(length)`. The special encodings
read a fixed-width integer and stringify it; their accounting (`+= 8` for
32-bit always, for 16-bit outside [0,9999], for negative 8-bit) is applied
whether or not `memory` was requested, exactly as in the source. -/
def readRawBytes (memory : Bool) (p : PState) : Except RErr (Option (List Nat) × Int × PState) := do
  let (length, encoded, p) ← readLength true p
  if !encoded then do
    let (bs, p) ← p.readBytes length
    let p ←
      if memory then
        if length ≤ 32 && isIntMatch bs then Except.ok { p with memory := p.sizeint }
        else do
          let a ← alloc length
          Except.ok { p with memory := a }
      else Except.ok p
    if p.skip then .ok (none, length, p) else .ok (some bs, length, p)
  else if length = 3 then
    readCompressed memory p
  else if length = 2 then do
    let (i32, p) ← p.little32
    let bs := decimalBytesOfInt i32
    let p := { p with memory := p.memory + 8 }
    if p.skip then .ok (none, (bs.length : Int), p) else .ok (some bs, (bs.length : Int), p)
  else if length = 1 then do
    let (i16, p) ← p.little16
    let bs := decimalBytesOfInt i16
    let p := if i16 < 0 || i16 ≥ 10000 then { p with memory := p.memory + 8 } else p
    if p.skip then .ok (none, (bs.length : Int), p) else .ok (some bs, (bs.length : Int), p)
  else if length = 0 then do
    let (b, p) ← p.readByte
    let v := toInt8 b
    let bs := decimalBytesOfInt v
    let p := if v < 0 then { p with memory := p.memory + 8 } else p
    if p.skip then .ok (none, (bs.length : Int), p) else .ok (some bs, (bs.length : Int), p)
  else .error .invalidLengthEncoding

/-- Go `Parser.readRawString(memory)`: raw bytes, then LZF decompression
when the compressed flag was set; a nil byte slice reads back as the empty
string. -/
def readRawString (memory : Bool) (p : PState) : Except RErr (List Nat × PState) := do
  let (bq, length, p) ← readRawBytes memory p
  match bq with
  | none => .ok ([], p)
  | some b =>
    if p.compressed then do
      let p := { p with compressed := false }
      let outq ← readLZF b (b.length : Int) length
      match outq with
      | none => .ok ([], p)
      | some out => .ok (out, p)
    else .ok (b, p)

/-- The value a score can carry. `val q` is a concrete double given as an
exact rational (every concrete value appearing below is exactly
representable or compared only against 0); `ofBits` keeps the 8 raw bytes
of a binary (SortedSet2) score uninterpreted. -/
inductive RDouble where
  | nan
  | posInf
  | negInf
  | val (q : Rat)
  | ofBits (bs : List Nat)
deriving DecidableEq

/-- Go `Parser.readDouble(encoding)`. For `EncodingSortedSet2` the score is
8 raw little-endian IEEE bytes (or an 8-byte discard under skip). Otherwise
one length byte: 253 is NaN, 254 is `math.Inf(0)` (positive), 255 is
`math.Inf(-1)`; any other value reads that many ASCII bytes and runs
`fmt.Sscanf(str, "%lg", &f)` on them. `l` is not a verb of Go's fmt
scanning language: `ss.okVerb` rejects it ("bad verb") before any
assignment to `f`, the call site discards both results of `Sscanf`, and
`f` keeps its zero value — so every finite score comes out as 0. -/
def readDouble (encoding : Nat) (p : PState) : Except RErr (RDouble × PState) :=
  if encoding = EncodingSortedSet2 then
    if p.skip then .ok (.val 0, p.discard 8)
    else do
      let (bs, p) ← p.readBytes 8
      .ok (.ofBits bs, p)
  else do
    let (b, p) ← p.readByte
    if b = 253 then .ok (.nan, p)
    else if b = 254 then .ok (.posInf, p)
    else if b = 255 then .ok (.negInf, p)
    else if p.skip then .ok (.val 0, p.discard (b : Int))
    else do
      let (_str, p) ← p.readString (b : Int)
      .ok (.val 0, p)

/-- Work-item slot, Go's `value` struct: compressed flag, declared length,
memory contribution, bytes (`none` for Go's nil) and the double slot. -/
structure WVal where
  c : Bool
  l : Int
  m : Nat
  b : Option (List Nat)
  f : RDouble
deriving DecidableEq

/-- Go `newValue` (pooling is not modelled; fields the pool would leave
stale are the zero values here). -/
def newValue (c : Bool) (l : Int) (m : Nat) (b : Option (List Nat)) : WVal :=
  WVal.mk c l m b (.val 0)

/-- Go `newDoubleValue`. -/
def newDoubleValue (f : RDouble) : WVal :=
  WVal.mk false 0 8 none f

/-- Go `Parser.readValue(memory)`: raw bytes plus the taken memory, bundled
as a work-item slot. -/
def readValue (memory : Bool) (p : PState) : Except RErr (WVal × PState) := do
  let (bq, length, p) ← readRawBytes memory p
  let c := p.compressed
  let p := { p with compressed := false }
  let (m, p) := p.getMemory
  .ok (newValue c length m bq, p)

/-- Go `Parser.readDoubleValue(encoding)`. -/
def readDoubleValue (encoding : Nat) (p : PState) : Except RErr (WVal × PState) := do
  let (f, p) ← readDouble encoding p
  .ok (newDoubleValue f, p)

/-- Key descriptor, Go's `Key` (the parser back-pointer is not data). -/
structure KeyRec where
  Encoding : Nat
  DB : Int
  Expiry : Int
  Key : List Nat
  memory : Nat
deriving DecidableEq

/-- The key-reading step of `Parser.Parse` (the lines between the `Type`
and `Key` callbacks): `skipStage(SkipAll)`, `readRawString(true)`, then
`currentKey.memory = getMemory() + top(exp)`. -/
def readKeyStep (b : Nat) (db exp : Int) (p : PState) : Except RErr (KeyRec × PState) := do
  let (_, p) := p.skipStage [SkipAll]
  let (key, p) ← readRawString true p
  let (m, p) := p.getMemory
  .ok (KeyRec.mk b db exp key (m + top exp), p)

/-- `n` consecutive `readValue(memory)` calls (the `for` loops of the
set/list, hash and quicklist arms of `Parser.Parse`). -/
def readValuesN : Nat → Bool → PState → Except RErr (List WVal × PState)
  | 0, _, p => .ok ([], p)
  | n + 1, memory, p => do
    let (v, p) ← readValue memory p
    let (vs, p) ← readValuesN n memory p
    .ok (v :: vs, p)

/-- `n` consecutive (member, score) pairs (the sorted-set arm). -/
def readZSetPairs : Nat → Nat → PState → Except RErr (List WVal × PState)
  | 0, _, p => .ok ([], p)
  | n + 1, enc, p => do
    let (v, p) ← readValue true p
    let (d, p) ← readDoubleValue enc p
    let (vs, p) ← readZSetPairs n enc p
    .ok (v :: d :: vs, p)

/-- The per-encoding value-reading switch of `Parser.Parse` (after the
`Key` callback and `skipStage(SkipValue, SkipAll)`): the raw slots of the
work item. `none` models the `default` arm (unknown encoding: log and stop
cleanly). Go sizes each `values` slice with `make`, which panics on a
negative count before any element is read. -/
def readValueBody (b : Nat) (p : PState) : Except RErr (Option (List WVal) × PState) :=
  if b = EncodingString then do
    let (v, p) ← readValue true p
    .ok (some [v], p)
  else if b = EncodingSet || b = EncodingList then do
    let (size, _, p) ← readLength false p
    if size < 0 then .error .goPanic
    else
      let p := if b = EncodingList then { p with sizeint := 4 } else p
      do
        let (vs, p) ← readValuesN size.toNat true p
        .ok (some vs, p)
  else if b = EncodingHash then do
    let (size, _, p) ← readLength false p
    if size < 0 then .error .goPanic
    else do
      let (vs, p) ← readValuesN (size.toNat * 2) true p
      .ok (some vs, p)
  else if b = EncodingSortedSet || b = EncodingSortedSet2 then do
    let (size, _, p) ← readLength false p
    if size < 0 then .error .goPanic
    else do
      let (vs, p) ← readZSetPairs size.toNat b p
      .ok (some vs, p)
  else if b = EncodingZipmap || b = EncodingZiplist || b = EncodingHashZip
      || b = EncodingSortedSetZip || b = EncodingIntset then do
    let (v, p) ← readValue false p
    .ok (some [v], p)
  else if b = EncodingQuicklist then do
    let (size, _, p) ← readLength false p
    if size < 0 then .error .goPanic
    else do
      let (vs, p) ← readValuesN size.toNat false p
      .ok (some vs, p)
  else .ok (none, p)

/-- Modelled from the spec: ASCII digits to the natural number they denote. -/
def digitsToNat (ds : List Nat) : Nat :=
  ds.foldl (fun acc c => acc * 10 + (c - 48)) 0

/-- Modelled from the spec ("read `b` ASCII bytes and parse as a double"):
the exact rational a plain decimal floating-point string denotes (optional
sign, integer digits, optional point and fraction digits). It is used only
to state what the score written in the file is; no nonzero value of this
form rounds to IEEE zero at the magnitudes below. -/
def specParseDecimal (bs : List Nat) : Option Rat :=
  let core : List Nat → Option Rat := fun r1 =>
    let ip := r1.takeWhile isDigitB
    let r2 := r1.dropWhile isDigitB
    match r2 with
    | [] => if ip.isEmpty then none else some (mkRat (digitsToNat ip) 1)
    | 46 :: r3 =>
      let fp := r3.takeWhile isDigitB
      let r4 := r3.dropWhile isDigitB
      if r4.isEmpty && !(ip.isEmpty && fp.isEmpty) then
        some (mkRat (digitsToNat ip * 10 ^ fp.length + digitsToNat fp) (10 ^ fp.length))
      else none
    | _ => none
  match bs with
  | 45 :: r1 => (core r1).map (fun q => -q)
  | 43 :: r1 => core r1
  | _ => core bs

/-- C1: the structural part of the score read holds (253 is NaN, 254 is
positive infinity, 255 negative infinity, and otherwise exactly `b` ASCII
bytes are consumed), but the finite case diverges: at the failing input —
encoding 3 (`SortedSet`, not `SortedSet2`) with length byte 5 and score
bytes "2.718" — the scanned double is 0, not 2.718, because `fmt.Sscanf`
rejects the C-style verb `%lg` ("bad verb") before assigning and the call
site drops the error. The number written in the file is 2718/1000, which
is not 0 under any rounding, so the delivered score does not equal it. -/
theorem readDouble_finite_score_is_zero :
    readDouble EncodingSortedSet (PState.fresh [5, 50, 46, 55, 49, 56]) =
      .ok (RDouble.val 0, { PState.fresh [5, 50, 46, 55, 49, 56] with
        r := MemReader.mk [5, 50, 46, 55, 49, 56] 6 }) ∧
    specParseDecimal [50, 46, 55, 49, 56] = some (mkRat 2718 1000) ∧
    mkRat 2718 1000 ≠ 0 := by
  refine ⟨by decide, by decide, by decide⟩

/-- C7: divergence at the failing input buf = [0x20], clen = len(buf) = 1,
ulen = 1: the control byte 0x20 opens a back-reference whose offset byte
would be buf[1]; the code reads it with no bounds check and panics with an
index out of range instead of returning InvalidCompressedData. -/
theorem readLZF_truncated_backref_panics :
    readLZF [32] 1 1 = .error .goPanic ∧
    readLZF [224] 1 20 = .error .goPanic := by
  refine ⟨by decide, by decide⟩

/-- C4 counterexample: a key stored in the 8-bit-integer special encoding
with value 5 (stream bytes 0xC0 0x05) and no expiry. Its decoded key
string is "5" (one byte), whose allocator-rounded cost — and whose
small-integer cost — is 8, so the claim puts `key.memory` at
8 + hash_entry() + root() + expiry() = 48; the code charges the
nonnegative 8-bit integer 0 bytes and delivers 40. -/
theorem readKeyStep_int8_key_memory_40 :
    (readKeyStep 0 0 (-1) (PState.fresh [0xC0, 5])).map (fun kp => (kp.1.Key, kp.1.memory)) =
      .ok ([53], 40) ∧
    alloc 1 = .ok 8 ∧ (40 : Nat) ≠ 8 + top (-1) := by
  refine ⟨by decide, by decide, by decide⟩

/-- C5 counterexample: the one-byte member "5" of a linked-list-encoded
value (stream: length 1, then the plain one-byte string 0x35) matches the
small-integer pattern within 32 bytes, yet its accounted cost is
`sizeint = 4` — the list arm of the value switch sets `p.sizeint = 4`
before reading members — and not the 8 the claim states. -/
theorem listMember_smallint_cost_4 :
    (readValueBody EncodingList (PState.fresh [1, 1, 53])).map
      (fun vp => vp.1.map (fun vs => vs.map (fun v => v.m))) = .ok (some [4]) ∧
    isIntMatch [53] = true ∧ (4 : Nat) ≠ 8 := by
  refine ⟨by decide, by decide, by decide⟩

/-- C6 counterexample: a string in the 8-bit special integer encoding with
the nonnegative value 5 (stream bytes 0xC0 0x05), read with accounting on,
contributes 0 to the memory counter — neither the 1-byte fixed-width cost
the claim assigns it nor the full 8 bytes of its exceptions. -/
theorem int8_value_memory_0 :
    (readRawBytes true (PState.fresh [0xC0, 5])).map (fun t => t.2.2.memory) = .ok 0 ∧
    (0 : Nat) ≠ 1 ∧ (0 : Nat) ≠ 8 := by
  refine ⟨by decide, by decide, by decide⟩

/-- Go `readZipmapEntry(r, value)`: a length byte below 254 or the 254
marker followed by a 32-bit little-endian length; 255 is
`ErrInvalidZipmapEntry`. For value entries one free byte is read and that
many bytes are discarded — before the value bytes are read, as in the
source (the common `return r.readString(...)` is duplicated into the two
`if value` shapes here, which is the same control flow). -/
def readZipmapEntry (r : MemReader) (value : Bool) : Except RErr (List Nat × MemReader) := do
  let (b, r) ← r.ReadByte
  if b < 254 then
    if value then do
      let (n, r) ← r.ReadByte
      let r := if n > 0 then r.Discard (n : Int) else r
      r.readString (b : Int)
    else r.readString (b : Int)
  else if b = 254 then do
    let (l, r) ← r.little32
    if value then do
      let (n, r) ← r.ReadByte
      let r := if n > 0 then r.Discard (n : Int) else r
      r.readString l
    else r.readString l
  else .error .invalidZipmapEntry

/-- The `for {}` loop of Go `value.readZipmap`: read a key entry and a
value entry, append both, stop when the next byte exists and is 255. Each
round consumes at least two bytes, so fuel `len + 1` never runs out. -/
def zipmapLoop : Nat → MemReader → List (List Nat) → Except RErr (List (List Nat))
  | 0, _, _ => .error .fuelExhausted
  | fuel + 1, r, values => do
    let (k, r) ← readZipmapEntry r false
    let values := values ++ [k]
    let (v, r) ← readZipmapEntry r true
    let values := values ++ [v]
    if r.i < r.b.length && r.b.getD r.i 0 = 255 then .ok values
    else zipmapLoop fuel r values

/-- Go `value.readZipmap`: nil bytes give a nil (empty) result; otherwise
the `zmlen` byte sizes the initial `values` slice — `make([]string,
zmlen*2)` with byte arithmetic, so `(2*zmlen) mod 256` empty strings (1024
when `zmlen` is 255) — and the loop appends the decoded entries after that
prefix. -/
def readZipmap (bq : Option (List Nat)) : Except RErr (List (List Nat)) :=
  match bq with
  | none => .ok []
  | some bs =>
    match (MemReader.mk bs 0).ReadByte with
    | .error e => .error e
    | .ok (zmlen, r) =>
      let values :=
        if zmlen ≤ 254 then List.replicate ((2 * zmlen) % 256) ([] : List Nat)
        else List.replicate 1024 ([] : List Nat)
      zipmapLoop (bs.length + 1) r values

/-- One Go map assignment `m[k] = v` on an association-list model of the
string map (insertion order kept; Go map iteration order is not modelled,
statements below are about membership). -/
def goMapSet (m : List (List Nat × List Nat)) (k v : List Nat) : List (List Nat × List Nat) :=
  if m.any (fun q => q.1 = k) then m.map (fun q => if q.1 = k then (k, v) else q)
  else m ++ [(k, v)]

/-- The pairwise insertion loop of `redisType.hash`
(`for i := 0; i < len(values); i+=2`): an odd slice panics on `values[i+1]`. -/
def hashPairsLoop : List (List Nat) → List (List Nat × List Nat) → Except RErr (List (List Nat × List Nat))
  | [], m => .ok m
  | [_], _ => .error .goPanic
  | k :: v :: rest, m => hashPairsLoop rest (goMapSet m k v)

/-- The `EncodingZipmap` arm of `redisType.hash`: decode the frame and
insert the decoded strings pairwise into the callback's map. -/
def hashFromZipmap (bq : Option (List Nat)) : Except RErr (List (List Nat × List Nat)) := do
  let values ← readZipmap bq
  hashPairsLoop values []

/-- The element loop of Go `value.readIntset`: for a width other than 2, 4
or 8 no case matches, nothing is read, `err` stays nil and the slot keeps
its zero value. -/
def readIntsetLoop : Nat → Int → MemReader → Except RErr (List Int × MemReader)
  | 0, _, r => .ok ([], r)
  | j + 1, encoding, r => do
    let (v, r) ←
      if encoding = 2 then r.little16
      else if encoding = 4 then r.little32
      else if encoding = 8 then r.little64
      else Except.ok ((0 : Int), r)
    let (vs, r) ← readIntsetLoop j encoding r
    .ok (v :: vs, r)

/-- Go `value.readIntset`: nil bytes give a nil result; otherwise a 32-bit
little-endian width, a 32-bit little-endian (signed) element count — a
negative count makes `make([]int, lengthOfContents)` panic — then the
element loop. -/
def readIntset (bq : Option (List Nat)) : Except RErr (List Int) :=
  match bq with
  | none => .ok []
  | some bs => do
    let r := MemReader.mk bs 0
    let (encoding, r) ← r.little32
    let (lengthOfContents, r) ← r.little32
    if lengthOfContents < 0 then .error .goPanic
    else do
      let (vs, _) ← readIntsetLoop lengthOfContents.toNat encoding r
      .ok vs

/-- The distinct keys the `EncodingIntset` arm of `redisType.set` puts into
the callback's set map, in first-insertion order. -/
def goIntSetKeys (vs : List Int) : List Int :=
  vs.foldl (fun m v => if m.contains v then m else m ++ [v]) []

/-- Go `strconv.Atoi` on a short byte string: optional sign, then one or
more decimal digits; anything else is a syntax error. (The 4-byte version
strings this is applied to cannot overflow.) -/
def goAtoi (s : List Nat) : Except RErr Int :=
  let signed : Bool × List Nat :=
    match s with
    | 43 :: rest => (false, rest)
    | 45 :: rest => (true, rest)
    | _ => (false, s)
  match signed with
  | (neg, ds) =>
    if ds.isEmpty then .error .atoiSyntax
    else if ds.all isDigitB then
      .ok (if neg then -(digitsToNat ds : Int) else (digitsToNat ds : Int))
    else .error .atoiSyntax

/-- The 5 magic bytes "REDIS". -/
def REDISmagic : List Nat := [82, 69, 68, 73, 83]

/-- The header check of `Parse`: 5 magic bytes compared against "REDIS"
(`ErrInvalidRDB` on mismatch), then 4 version bytes through
`strconv.Atoi` — whose error is returned as-is — and the range check
`v < 1 || v > 8` (`ErrUnsupportedRDB`). -/
def parseHeader (r : MemReader) : Except RErr (Int × MemReader) := do
  let (magic, r) ← r.readString 5
  if magic ≠ REDISmagic then .error .invalidRDB
  else do
    let (version, r) ← r.readString 4
    match goAtoi version with
    | .error e => .error e
    | .ok v => if v < 1 || v > 8 then .error .unsupportedRDB else .ok (v, r)

/-- Modelled from the spec: "REDIS followed by 4 decimal digits whose value
lies in [1, 8]" — the version field as the claim describes it. -/
def specVersionOK (v : List Nat) : Bool :=
  v.length = 4 && v.all isDigitB && 1 ≤ digitsToNat v && digitsToNat v ≤ 8

/-- C2 counterexample: the zipmap frame 01 01 'a' 01 00 'b' FF holds the
single entry ("a", "b"), but `make([]string, zmlen*2)` prefixes the decoded
entries with two already-present empty strings, and the Hash assembly turns
them into an extra "" -> "" pair: the delivered map holds ("", ""), which is
not an entry of the frame. -/
theorem zipmap_extra_empty_pair :
    readZipmap (some [1, 1, 97, 1, 0, 98, 255]) = .ok [[], [], [97], [98]] ∧
    hashFromZipmap (some [1, 1, 97, 1, 0, 98, 255]) = .ok [([], []), ([97], [98])] ∧
    (([] : List Nat), ([] : List Nat)) ∉ [(([97] : List Nat), ([98] : List Nat))] := by
  refine ⟨by decide, by decide, by decide⟩

/-- C8 counterexample: the file starting REDIS "+001" parses successfully
as version 1 (Go's `strconv.Atoi` accepts an explicit sign), although
"+001" is not 4 decimal digits, so the parse neither starts with 4 decimal
digits in [0001, 0008] nor fails. -/
theorem parseHeader_accepts_plus001 :
    parseHeader (MemReader.mk [82, 69, 68, 73, 83, 43, 48, 48, 49, 255] 0) =
      .ok (1, MemReader.mk [82, 69, 68, 73, 83, 43, 48, 48, 49, 255] 9) ∧
    specVersionOK [43, 48, 48, 49] = false := by
  refine ⟨by decide, by decide⟩

/-- C10 counterexample: an intset frame whose header declares width 3 and
element count bytes ff ff ff ff (the signed 32-bit count -1): the decoder
does not return count zero values without error — `make([]int, -1)`
panics. -/
theorem intset_negative_count_panics :
    readIntset (some [3, 0, 0, 0, 255, 255, 255, 255]) = .error .goPanic := by decide

/-- `getD` at the junction of an append. -/
theorem getD_append_at (pre post : List Nat) (x : Nat) :
    (pre ++ x :: post).getD pre.length 0 = x := by
  induction pre with
  | nil => rfl
  | cons a l ih => simpa using ih

/-- `ReadByte` positioned at the junction of an append. -/
theorem ReadByte_at (pre post : List Nat) (x : Nat) :
    (MemReader.mk (pre ++ x :: post) pre.length).ReadByte =
      .ok (x, MemReader.mk (pre ++ x :: post) (pre.length + 1)) := by
  unfold MemReader.ReadByte
  have hlen : (pre ++ x :: post).length = pre.length + (post.length + 1) := by
    simp [List.length_append]
  rw [if_neg (by simp [hlen]), if_neg (by simp [hlen]), getD_append_at]

/-- `ReadBytes` positioned at the junction of an append. -/
theorem ReadBytes_at (pre mid post : List Nat) (n : Nat) (h : mid.length = n) :
    (MemReader.mk (pre ++ mid ++ post) pre.length).ReadBytes (n : Int) =
      .ok (mid, MemReader.mk (pre ++ mid ++ post) (pre.length + n)) := by
  unfold MemReader.ReadBytes
  have hlen : (pre ++ mid ++ post).length = pre.length + (mid.length + post.length) := by
    simp [List.length_append]
  rw [if_neg (by simp [hlen])]
  rw [if_neg (by
    simp only [hlen]
    omega)]
  rw [if_neg (by omega)]
  have hdrop : (pre ++ mid ++ post).drop pre.length = mid ++ post := by
    rw [List.append_assoc, List.drop_left]
  have htake : (mid ++ post).take n = mid := by
    rw [← h, List.take_left]
  simp [hdrop, htake, Int.toNat_natCast]

/-- `readString` positioned at the junction of an append. -/
theorem readString_at (pre mid post : List Nat) (n : Nat) (h : mid.length = n) :
    (MemReader.mk (pre ++ mid ++ post) pre.length).readString (n : Int) =
      .ok (mid, MemReader.mk (pre ++ mid ++ post) (pre.length + n)) :=
  ReadBytes_at pre mid post n h

/-- `little16` positioned at the junction of an append. -/
theorem little16_at (pre mid post : List Nat) (h : mid.length = 2) :
    (MemReader.mk (pre ++ mid ++ post) pre.length).little16 =
      .ok (toInt16 (mid.getD 0 0 + 2 ^ 8 * mid.getD 1 0),
        MemReader.mk (pre ++ mid ++ post) (pre.length + 2)) := by
  unfold MemReader.little16
  rw [show ((2 : Int)) = ((2 : Nat) : Int) by rfl]
  rw [ReadBytes_at pre mid post 2 h]
  rfl

/-- `little32` positioned at the junction of an append. -/
theorem little32_at (pre mid post : List Nat) (h : mid.length = 4) :
    (MemReader.mk (pre ++ mid ++ post) pre.length).little32 =
      .ok (toInt32 (mid.getD 0 0 + 2 ^ 8 * mid.getD 1 0 + 2 ^ 16 * mid.getD 2 0 + 2 ^ 24 * mid.getD 3 0),
        MemReader.mk (pre ++ mid ++ post) (pre.length + 4)) := by
  unfold MemReader.little32
  rw [show ((4 : Int)) = ((4 : Nat) : Int) by rfl]
  rw [ReadBytes_at pre mid post 4 h]
  rfl

/-- `little64` positioned at the junction of an append. -/
theorem little64_at (pre mid post : List Nat) (h : mid.length = 8) :
    (MemReader.mk (pre ++ mid ++ post) pre.length).little64 =
      .ok (toInt64 (mid.getD 0 0 + 2 ^ 8 * mid.getD 1 0 + 2 ^ 16 * mid.getD 2 0 + 2 ^ 24 * mid.getD 3 0
        + 2 ^ 32 * mid.getD 4 0 + 2 ^ 40 * mid.getD 5 0 + 2 ^ 48 * mid.getD 6 0 + 2 ^ 56 * mid.getD 7 0),
        MemReader.mk (pre ++ mid ++ post) (pre.length + 8)) := by
  unfold MemReader.little64
  rw [show ((8 : Int)) = ((8 : Nat) : Int) by rfl]
  rw [ReadBytes_at pre mid post 8 h]
  rfl

/-- `big32` positioned at the junction of an append. -/
theorem big32_at (pre mid post : List Nat) (h : mid.length = 4) :
    (MemReader.mk (pre ++ mid ++ post) pre.length).big32 =
      .ok (toInt32 (2 ^ 24 * mid.getD 0 0 + 2 ^ 16 * mid.getD 1 0 + 2 ^ 8 * mid.getD 2 0 + mid.getD 3 0),
        MemReader.mk (pre ++ mid ++ post) (pre.length + 4)) := by
  unfold MemReader.big32
  rw [show ((4 : Int)) = ((4 : Nat) : Int) by rfl]
  rw [ReadBytes_at pre mid post 4 h]
  rfl

/-- `big64` positioned at the junction of an append. -/
theorem big64_at (pre mid post : List Nat) (h : mid.length = 8) :
    (MemReader.mk (pre ++ mid ++ post) pre.length).big64 =
      .ok (toInt64 (2 ^ 56 * mid.getD 0 0 + 2 ^ 48 * mid.getD 1 0 + 2 ^ 40 * mid.getD 2 0
        + 2 ^ 32 * mid.getD 3 0 + 2 ^ 24 * mid.getD 4 0 + 2 ^ 16 * mid.getD 5 0
        + 2 ^ 8 * mid.getD 6 0 + mid.getD 7 0),
        MemReader.mk (pre ++ mid ++ post) (pre.length + 8)) := by
  unfold MemReader.big64
  rw [show ((8 : Int)) = ((8 : Nat) : Int) by rfl]
  rw [ReadBytes_at pre mid post 8 h]
  rfl

/-- Little-endian 4-byte encoding of a natural below `2^32` (a helper for
building frames inside statements). -/
def le32enc (n : Nat) : List Nat :=
  [n % 256, n / 2 ^ 8 % 256, n / 2 ^ 16 % 256, n / 2 ^ 24 % 256]

/-- The four bytes of `le32enc` recompose to the encoded value. -/
theorem le32enc_recompose (n : Nat) (h : n < 2 ^ 32) :
    (le32enc n).getD 0 0 + 2 ^ 8 * (le32enc n).getD 1 0
      + 2 ^ 16 * (le32enc n).getD 2 0 + 2 ^ 24 * (le32enc n).getD 3 0 = n := by
  simp only [le32enc, List.getD_cons_zero, List.getD_cons_succ]
  omega

/-- The element loop returns count zeros, reading nothing, whenever the
declared width is none of 2, 4, 8. -/
theorem readIntsetLoop_unknown (enc : Int) (h2 : enc ≠ 2) (h4 : enc ≠ 4) (h8 : enc ≠ 8) :
    ∀ c r, readIntsetLoop c enc r = .ok (List.replicate c (0 : Int), r) := by
  intro c
  induction c with
  | zero => intro r; rfl
  | succ n ih =>
    intro r
    simp only [readIntsetLoop, if_neg h2, if_neg h4, if_neg h8]
    rw [show (Except.ok ((0 : Int), r) : Except RErr (Int × MemReader)) >>= (fun x =>
      readIntsetLoop n enc x.2 >>= fun y => Except.ok (x.1 :: y.1, y.2)) =
      (readIntsetLoop n enc r >>= fun y => Except.ok ((0 : Int) :: y.1, y.2)) from rfl]
    rw [ih r]
    rfl

/-- Inserting only zeros into an empty Go set map leaves the singleton. -/
theorem goIntSetKeys_replicate_zero (c : Nat) (h : 0 < c) :
    goIntSetKeys (List.replicate c (0 : Int)) = [0] := by
  have haux : ∀ n, List.foldl
      (fun m v => if m.contains v then m else m ++ [v]) ([(0 : Int)]) (List.replicate n (0 : Int)) = [0] := by
    intro n
    induction n with
    | zero => rfl
    | succ k ih => simpa [List.replicate_succ] using ih
  rcases Nat.exists_eq_succ_of_ne_zero (Nat.pos_iff_ne_zero.mp h) with ⟨k, hk⟩
  subst hk
  simp only [goIntSetKeys, List.replicate_succ, List.foldl_cons]
  simpa using haux k

/-- Bind of a success, specialised to the parser's error monad. -/
theorem exc_bind_ok {α β : Type} (a : α) (f : α → Except RErr β) :
    ((Except.ok a : Except RErr α) >>= f) = f a := rfl

/-- Bind of a failure, specialised to the parser's error monad. -/
theorem exc_bind_err {α β : Type} (e : RErr) (f : α → Except RErr β) :
    ((Except.error e : Except RErr α) >>= f) = .error e := rfl

/-- Inversion of a successful bind. -/
theorem exc_bind_eq_ok {α β : Type} {e : Except RErr α} {f : α → Except RErr β} {v : β} :
    (e >>= f) = .ok v ↔ ∃ a, e = .ok a ∧ f a = .ok v := by
  cases e with
  | ok a => simp [exc_bind_ok]
  | error err => simp [exc_bind_err]

/-- `toInt8` below the sign bit. -/
theorem toInt8_small (n : Nat) (h : n < 2 ^ 7) : toInt8 n = (n : Int) := by
  unfold toInt8
  rw [if_pos h]

/-- `toInt16` below the sign bit. -/
theorem toInt16_small (n : Nat) (h : n < 2 ^ 15) : toInt16 n = (n : Int) := by
  unfold toInt16
  rw [if_pos h]

/-- `toInt32` below the sign bit. -/
theorem toInt32_small (n : Nat) (h : n < 2 ^ 31) : toInt32 n = (n : Int) := by
  unfold toInt32
  rw [if_pos h]

/-- `toInt64` below the sign bit. -/
theorem toInt64_small (n : Nat) (h : n < 2 ^ 63) : toInt64 n = (n : Int) := by
  unfold toInt64
  rw [if_pos h]

/-- C10 (amended): for an intset frame declaring any width other than 2, 4
or 8 and a nonnegative element count (a negative count panics instead, see
the counterexample), the decoder raises no error and returns count zero
values without advancing over the payload, so the Set callback receives the
singleton {0} whenever the count is nonzero. -/
theorem readIntset_unknown_width (w c : Nat) (payload : List Nat)
    (hw : w < 2 ^ 31) (hc : c < 2 ^ 31) (h2 : w ≠ 2) (h4 : w ≠ 4) (h8 : w ≠ 8) :
    readIntset (some (le32enc w ++ le32enc c ++ payload)) = .ok (List.replicate c (0 : Int)) ∧
    (0 < c → goIntSetKeys (List.replicate c (0 : Int)) = [0]) := by
  refine ⟨?_, fun h => goIntSetKeys_replicate_zero c h⟩
  have hlw : (le32enc w).length = 4 := by simp [le32enc]
  have h1 := little32_at [] (le32enc w) (le32enc c ++ payload) hlw
  have hr2 := little32_at (le32enc w) (le32enc c) payload (by simp [le32enc])
  rw [le32enc_recompose w (by omega), toInt32_small w hw] at h1
  rw [le32enc_recompose c (by omega), toInt32_small c hc] at hr2
  simp only [List.nil_append, List.length_nil, Nat.zero_add] at h1
  rw [hlw] at hr2
  simp only [readIntset]
  rw [List.append_assoc]
  rw [h1]
  simp only [exc_bind_ok]
  rw [List.append_assoc] at hr2
  rw [hr2]
  simp only [exc_bind_ok]
  rw [if_neg (by omega)]
  rw [readIntsetLoop_unknown (w : Int)
    (by exact_mod_cast h2) (by exact_mod_cast h4) (by exact_mod_cast h8)]
  simp [Int.toNat_natCast, exc_bind_ok]

/-- C10 witness: a concrete frame with width 3 and count 2. -/
theorem readIntset_unknown_width_witness :
    readIntset (some (le32enc 3 ++ le32enc 2 ++ [9, 9, 9, 9, 9, 9])) =
      .ok (List.replicate 2 (0 : Int)) ∧
    (0 < 2 → goIntSetKeys (List.replicate 2 (0 : Int)) = [0]) :=
  readIntset_unknown_width 3 2 [9, 9, 9, 9, 9, 9] (by decide) (by decide)
    (by decide) (by decide) (by decide)

/-- C8 (amended): the magic/version gate, characterised. A file whose first
5 bytes are not "REDIS" fails with InvalidSnapshot (`ErrInvalidRDB`). The 4
version bytes then go through `strconv.Atoi`: a string that is not an
optionally-signed digit run fails with Atoi's own syntax error, not
UnsupportedVersion; a parsed value outside [1, 8] fails with
UnsupportedVersion; otherwise the parse proceeds — which accepts
sign-prefixed and zero-padded forms such as "+001" that are not 4 decimal
digits (see the counterexample). -/
theorem parseHeader_gate (m v rest : List Nat) (hm : m.length = 5) (hv : v.length = 4) :
    parseHeader (MemReader.mk (m ++ v ++ rest) 0) =
      (if m ≠ REDISmagic then .error .invalidRDB
       else
         match goAtoi v with
         | .error e => .error e
         | .ok n =>
           if n < 1 || n > 8 then .error .unsupportedRDB
           else .ok (n, MemReader.mk (m ++ v ++ rest) 9)) := by
  have h1 := readString_at [] m (v ++ rest) 5 hm
  simp only [List.nil_append, List.length_nil, Nat.zero_add, Nat.cast_ofNat] at h1
  have h2v := readString_at m v rest 4 hv
  rw [hm] at h2v
  simp only [Nat.cast_ofNat, show (5 + 4 : Nat) = 9 from rfl] at h2v
  rw [List.append_assoc] at h2v
  unfold parseHeader
  rw [List.append_assoc]
  rw [h1]
  simp only [exc_bind_ok]
  by_cases hmag : m = REDISmagic
  · rw [if_neg (by simp [hmag]), if_neg (by simp [hmag])]
    rw [h2v]
    simp only [exc_bind_ok]
  · rw [if_pos hmag, if_pos hmag]

/-- C8 witness: the well-formed header REDIS0007 parses to version 7. -/
theorem parseHeader_gate_witness :
    parseHeader (MemReader.mk (REDISmagic ++ [48, 48, 48, 55] ++ [255]) 0) =
      .ok (7, MemReader.mk (REDISmagic ++ [48, 48, 48, 55] ++ [255]) 9) :=
  (parseHeader_gate REDISmagic [48, 48, 48, 55] [255] (by decide) (by decide)).trans (by decide)

/-- `PState.readByte` only changes the reader. -/
theorem readByte_frame (p q : PState) (b : Nat) (h : p.readByte = .ok (b, q)) :
    q = { p with r := q.r } := by
  unfold PState.readByte at h
  cases hb : p.r.ReadByte with
  | error e => rw [hb] at h; exact absurd h (by simp [exc_bind_err])
  | ok br =>
    rw [hb] at h
    simp only [exc_bind_ok] at h
    cases h
    rfl

/-- `PState.big32` only changes the reader. -/
theorem big32_frame (p q : PState) (v : Int) (h : p.big32 = .ok (v, q)) :
    q = { p with r := q.r } := by
  unfold PState.big32 at h
  cases hb : p.r.big32 with
  | error e => rw [hb] at h; exact absurd h (by simp [exc_bind_err])
  | ok br =>
    rw [hb] at h
    simp only [exc_bind_ok] at h
    cases h
    rfl

/-- `PState.big64` only changes the reader. -/
theorem big64_frame (p q : PState) (v : Int) (h : p.big64 = .ok (v, q)) :
    q = { p with r := q.r } := by
  unfold PState.big64 at h
  cases hb : p.r.big64 with
  | error e => rw [hb] at h; exact absurd h (by simp [exc_bind_err])
  | ok br =>
    rw [hb] at h
    simp only [exc_bind_ok] at h
    cases h
    rfl

/-- `readLength` only changes the reader. -/
theorem readLength_frame (w : Bool) (p : PState) (v : Int) (e : Bool) (q : PState)
    (h : readLength w p = .ok (v, e, q)) :
    q = { p with r := q.r } := by
  unfold readLength at h
  cases hb : p.readByte with
  | error err => rw [hb] at h; exact absurd h (by simp [exc_bind_err])
  | ok br =>
    rw [hb] at h
    simp only [exc_bind_ok] at h
    have hfr := readByte_frame p br.2 br.1 (by rw [hb])
    split at h
    · cases hb32 : br.2.big32 with
      | error err => rw [hb32] at h; exact absurd h (by simp [exc_bind_err])
      | ok vr =>
        rw [hb32] at h
        simp only [exc_bind_ok] at h
        cases h
        rw [big32_frame br.2 vr.2 vr.1 (by rw [hb32]), hfr]
    · split at h
      · cases hb64 : br.2.big64 with
        | error err => rw [hb64] at h; exact absurd h (by simp [exc_bind_err])
        | ok vr =>
          rw [hb64] at h
          simp only [exc_bind_ok] at h
          cases h
          rw [big64_frame br.2 vr.2 vr.1 (by rw [hb64]), hfr]
      · split at h
        · cases h
          exact hfr
        · split at h
          · cases hb2 : br.2.readByte with
            | error err => rw [hb2] at h; exact absurd h (by simp [exc_bind_err])
            | ok br2 =>
              rw [hb2] at h
              simp only [exc_bind_ok] at h
              cases h
              rw [readByte_frame br.2 br2.2 br2.1 (by rw [hb2]), hfr]
          · split at h
            · split at h
              · cases h
                exact hfr
              · exact absurd h (by simp)
            · exact absurd h (by simp)

/-- `PState.readByte` positioned at the junction of an append. -/
theorem pReadByte_at (p : PState) (pre post : List Nat) (x : Nat)
    (hr : p.r = MemReader.mk (pre ++ x :: post) pre.length) :
    p.readByte = .ok (x, { p with r := MemReader.mk (pre ++ x :: post) (pre.length + 1) }) := by
  unfold PState.readByte
  rw [hr, ReadByte_at]
  rfl

/-- `PState.readBytes` positioned at the junction of an append. -/
theorem pReadBytes_at (p : PState) (pre mid post : List Nat) (n : Nat) (h : mid.length = n)
    (hr : p.r = MemReader.mk (pre ++ mid ++ post) pre.length) :
    p.readBytes (n : Int) =
      .ok (mid, { p with r := MemReader.mk (pre ++ mid ++ post) (pre.length + n) }) := by
  unfold PState.readBytes
  rw [hr, ReadBytes_at pre mid post n h]
  rfl

/-- `PState.little16` positioned at the junction of an append. -/
theorem pLittle16_at (p : PState) (pre mid post : List Nat) (h : mid.length = 2)
    (hr : p.r = MemReader.mk (pre ++ mid ++ post) pre.length) :
    p.little16 = .ok (toInt16 (mid.getD 0 0 + 2 ^ 8 * mid.getD 1 0),
      { p with r := MemReader.mk (pre ++ mid ++ post) (pre.length + 2) }) := by
  unfold PState.little16
  rw [hr, little16_at pre mid post h]
  rfl

/-- `PState.little32` positioned at the junction of an append. -/
theorem pLittle32_at (p : PState) (pre mid post : List Nat) (h : mid.length = 4)
    (hr : p.r = MemReader.mk (pre ++ mid ++ post) pre.length) :
    p.little32 = .ok (toInt32 (mid.getD 0 0 + 2 ^ 8 * mid.getD 1 0
        + 2 ^ 16 * mid.getD 2 0 + 2 ^ 24 * mid.getD 3 0),
      { p with r := MemReader.mk (pre ++ mid ++ post) (pre.length + 4) }) := by
  unfold PState.little32
  rw [hr, little32_at pre mid post h]
  rfl

/-- `readLength` at the special-encoding byte 0xC0 (tag 0, the 8-bit
integer form). -/
theorem readLength_at192 (p : PState) (pre post : List Nat)
    (hr : p.r = MemReader.mk (pre ++ 192 :: post) pre.length) :
    readLength true p = .ok (0, true,
      { p with r := MemReader.mk (pre ++ 192 :: post) (pre.length + 1) }) := by
  unfold readLength
  rw [pReadByte_at p pre post 192 hr]
  rfl

/-- `readLength` at the special-encoding byte 0xC1 (tag 1, the 16-bit
integer form). -/
theorem readLength_at193 (p : PState) (pre post : List Nat)
    (hr : p.r = MemReader.mk (pre ++ 193 :: post) pre.length) :
    readLength true p = .ok (1, true,
      { p with r := MemReader.mk (pre ++ 193 :: post) (pre.length + 1) }) := by
  unfold readLength
  rw [pReadByte_at p pre post 193 hr]
  rfl

/-- `readLength` at the special-encoding byte 0xC2 (tag 2, the 32-bit
integer form). -/
theorem readLength_at194 (p : PState) (pre post : List Nat)
    (hr : p.r = MemReader.mk (pre ++ 194 :: post) pre.length) :
    readLength true p = .ok (2, true,
      { p with r := MemReader.mk (pre ++ 194 :: post) (pre.length + 1) }) := by
  unfold readLength
  rw [pReadByte_at p pre post 194 hr]
  rfl

/-- `readRawBytes` with accounting on, at an 8-bit special-integer
encoding: the decimal form of the signed byte, charged 8 only when
negative. -/
theorem readRawBytes_int8_at (p : PState) (pre post : List Nat) (c : Nat)
    (hr : p.r = MemReader.mk (pre ++ 192 :: c :: post) pre.length) :
    readRawBytes true p = .ok
      ((if p.skip then none else some (decimalBytesOfInt (toInt8 c))),
       ((decimalBytesOfInt (toInt8 c)).length : Int),
       { p with r := MemReader.mk (pre ++ 192 :: c :: post) (pre.length + 2),
                memory := p.memory + (if toInt8 c < 0 then 8 else 0) }) := by
  unfold readRawBytes
  rw [readLength_at192 p pre (c :: post) hr]
  simp only [exc_bind_ok]
  norm_num
  have hr2 : ({ p with r := MemReader.mk (pre ++ 192 :: c :: post) (pre.length + 1) } : PState).r =
      MemReader.mk ((pre ++ [192]) ++ c :: post) (pre ++ [192]).length := by
    simp [← List.append_cons]
  rw [pReadByte_at _ (pre ++ [192]) post c hr2]
  simp only [exc_bind_ok]
  by_cases hneg : toInt8 c < 0 <;> by_cases hskip : p.skip <;>
    simp [hneg, hskip, ← List.append_cons]

/-- `readRawBytes` with accounting on, at a 16-bit special-integer
encoding: the decimal form of the signed little-endian pair, charged 8
exactly when negative or at least 10000. -/
theorem readRawBytes_int16_at (p : PState) (pre post : List Nat) (b0 b1 : Nat)
    (hr : p.r = MemReader.mk (pre ++ 193 :: b0 :: b1 :: post) pre.length) :
    readRawBytes true p = .ok
      ((if p.skip then none else some (decimalBytesOfInt (toInt16 (b0 + 2 ^ 8 * b1)))),
       ((decimalBytesOfInt (toInt16 (b0 + 2 ^ 8 * b1))).length : Int),
       { p with r := MemReader.mk (pre ++ 193 :: b0 :: b1 :: post) (pre.length + 3),
                memory := p.memory +
                  (if toInt16 (b0 + 2 ^ 8 * b1) < 0 ∨ toInt16 (b0 + 2 ^ 8 * b1) ≥ 10000
                   then 8 else 0) }) := by
  unfold readRawBytes
  rw [readLength_at193 p pre (b0 :: b1 :: post) hr]
  simp only [exc_bind_ok]
  norm_num
  have hr2 : ({ p with r := MemReader.mk (pre ++ 193 :: b0 :: b1 :: post) (pre.length + 1) } : PState).r =
      MemReader.mk ((pre ++ [193]) ++ [b0, b1] ++ post) (pre ++ [193]).length := by
    simp [← List.append_cons]
  rw [pLittle16_at _ (pre ++ [193]) [b0, b1] post rfl hr2]
  simp only [exc_bind_ok, List.getD_cons_zero, List.getD_cons_succ]
  by_cases hneg : toInt16 (b0 + 256 * b1) < 0 ∨ 10000 ≤ toInt16 (b0 + 256 * b1) <;>
    by_cases hskip : p.skip <;>
    simp [hneg, hskip, ← List.append_cons]

/-- `readRawBytes` with accounting on, at a 32-bit special-integer
encoding: the decimal form of the signed little-endian quad, always
charged 8. -/
theorem readRawBytes_int32_at (p : PState) (pre post : List Nat) (b0 b1 b2 b3 : Nat)
    (hr : p.r = MemReader.mk (pre ++ 194 :: b0 :: b1 :: b2 :: b3 :: post) pre.length) :
    readRawBytes true p = .ok
      ((if p.skip then none
        else some (decimalBytesOfInt (toInt32 (b0 + 2 ^ 8 * b1 + 2 ^ 16 * b2 + 2 ^ 24 * b3)))),
       ((decimalBytesOfInt (toInt32 (b0 + 2 ^ 8 * b1 + 2 ^ 16 * b2 + 2 ^ 24 * b3))).length : Int),
       { p with r := MemReader.mk (pre ++ 194 :: b0 :: b1 :: b2 :: b3 :: post) (pre.length + 5),
                memory := p.memory + 8 }) := by
  unfold readRawBytes
  rw [readLength_at194 p pre (b0 :: b1 :: b2 :: b3 :: post) hr]
  simp only [exc_bind_ok]
  norm_num
  have hr2 : ({ p with
      r := MemReader.mk (pre ++ 194 :: b0 :: b1 :: b2 :: b3 :: post) (pre.length + 1) } : PState).r =
      MemReader.mk ((pre ++ [194]) ++ [b0, b1, b2, b3] ++ post) (pre ++ [194]).length := by
    simp [← List.append_cons]
  rw [pLittle32_at _ (pre ++ [194]) [b0, b1, b2, b3] post rfl hr2]
  simp only [exc_bind_ok, List.getD_cons_zero, List.getD_cons_succ]
  by_cases hskip : p.skip <;> simp [hskip, ← List.append_cons]

/-- C6 (amended): strings in the 8/16/32-bit special integer encodings are
accounted neither the fixed width nor the stringified length: a nonnegative
8-bit integer and a 16-bit integer inside [0, 9999] contribute 0 (they
mirror the server's shared-integer table), while a negative 8-bit integer,
a 16-bit integer outside [0, 9999], and every 32-bit integer contribute the
full 8 bytes. -/
theorem readRawBytes_special_int_costs :
    (∀ (p : PState) pre post c, p.r = MemReader.mk (pre ++ 192 :: c :: post) pre.length →
      ∃ bv l p', readRawBytes true p = .ok (bv, l, p') ∧
        p'.memory = p.memory + (if toInt8 c < 0 then 8 else 0)) ∧
    (∀ (p : PState) pre post b0 b1,
      p.r = MemReader.mk (pre ++ 193 :: b0 :: b1 :: post) pre.length →
      ∃ bv l p', readRawBytes true p = .ok (bv, l, p') ∧
        p'.memory = p.memory +
          (if toInt16 (b0 + 2 ^ 8 * b1) < 0 ∨ 10000 ≤ toInt16 (b0 + 2 ^ 8 * b1)
           then 8 else 0)) ∧
    (∀ (p : PState) pre post b0 b1 b2 b3,
      p.r = MemReader.mk (pre ++ 194 :: b0 :: b1 :: b2 :: b3 :: post) pre.length →
      ∃ bv l p', readRawBytes true p = .ok (bv, l, p') ∧
        p'.memory = p.memory + 8) := by
  refine ⟨?_, ?_, ?_⟩
  · intro p pre post c hr
    exact ⟨_, _, _, readRawBytes_int8_at p pre post c hr, rfl⟩
  · intro p pre post b0 b1 hr
    exact ⟨_, _, _, readRawBytes_int16_at p pre post b0 b1 hr, rfl⟩
  · intro p pre post b0 b1 b2 b3 hr
    exact ⟨_, _, _, readRawBytes_int32_at p pre post b0 b1 b2 b3 hr, rfl⟩

/-- C6 witness: concrete instances of all three encodings — the negative
8-bit integer -56 (byte 200) costs 8, the in-range 16-bit integer 100
costs 0, and the 32-bit integer 5 costs 8. -/
theorem readRawBytes_special_int_costs_witness :
    (∃ bv l p', readRawBytes true (PState.fresh [192, 200]) = .ok (bv, l, p') ∧
      p'.memory = (PState.fresh [192, 200]).memory + (if toInt8 200 < 0 then 8 else 0)) ∧
    (∃ bv l p', readRawBytes true (PState.fresh [193, 100, 0]) = .ok (bv, l, p') ∧
      p'.memory = (PState.fresh [193, 100, 0]).memory +
        (if toInt16 (100 + 2 ^ 8 * 0) < 0 ∨ 10000 ≤ toInt16 (100 + 2 ^ 8 * 0) then 8 else 0)) ∧
    (∃ bv l p', readRawBytes true (PState.fresh [194, 5, 0, 0, 0]) = .ok (bv, l, p') ∧
      p'.memory = (PState.fresh [194, 5, 0, 0, 0]).memory + 8) :=
  ⟨readRawBytes_special_int_costs.1 (PState.fresh [192, 200]) [] [] 200 rfl,
   readRawBytes_special_int_costs.2.1 (PState.fresh [193, 100, 0]) [] [] 100 0 rfl,
   readRawBytes_special_int_costs.2.2 (PState.fresh [194, 5, 0, 0, 0]) [] [] 5 0 0 0 rfl⟩

/-- C4 (amended): for every record whose key is stored as a plain-length
string, `key.memory` is exactly (8 when the key is at most 32 bytes and
matches the integer pattern, else the allocator-rounded `alloc` cost of its
byte length) plus `hash_entry() + root() + expiry()` = 24 + 16 + (0 without
an expiry, 32 with one) — `top exp`. Keys in the 8/16/32-bit special
integer encodings instead contribute the integer-sharing costs of C6 (0 or
8; see the counterexample), and an LZF-compressed key is charged
`alloc` of its declared uncompressed length with no integer shortcut. -/
theorem readKeyStep_plain_memory (b0 : Nat) (db exp : Int) (p q : PState)
    (n : Nat) (data : List Nat) (r2 : MemReader) (a : Nat)
    (hrun : p.running &&& SkipAll = 0)
    (hcomp : p.compressed = false)
    (hsz : p.sizeint = 8)
    (hlen : readLength true { p with skip := false } = .ok ((n : Int), false, q))
    (hbytes : q.r.ReadBytes (n : Int) = .ok (data, r2))
    (halloc : alloc (n : Int) = .ok a) :
    readKeyStep b0 db exp p = .ok
      (KeyRec.mk b0 db exp data
        (((if (n : Int) ≤ 32 && isIntMatch data then 8 else a) : Nat) + top exp),
       { q with r := r2, memory := 0 }) := by
  have hq := readLength_frame true { p with skip := false } _ _ _ hlen
  obtain ⟨qr, qs, qc, qm, qrun, qg, qsz⟩ := q
  simp only [PState.mk.injEq] at hq
  obtain ⟨-, hqs, hqc, hqm, hqrun, hqg, hqsz⟩ := hq
  subst hqs hqc hqm hqrun hqg hqsz
  have hskipStage : p.skipStage [SkipAll] = (false, { p with skip := false }) := by
    simp [PState.skipStage, hrun]
  unfold readKeyStep readRawString readRawBytes
  rw [hskipStage]
  simp only [exc_bind_ok]
  rw [hlen]
  simp only [exc_bind_ok, Bool.not_false, if_true]
  unfold PState.readBytes
  rw [hbytes]
  simp only [exc_bind_ok]
  by_cases hc : (decide ((n : Int) ≤ 32) && isIntMatch data) = true
  · simp only [hc, if_true, if_pos rfl]
    simp [PState.getMemory, hsz, hcomp, exc_bind_ok]
  · simp only [hc, if_false]
    rw [halloc]
    simp only [exc_bind_ok]
    simp [PState.getMemory, hc, hcomp, exc_bind_ok]

/-- C4 witness: a fresh parser over a 40-byte plain key "aaa…a" with
expiry 77: `alloc 40 = 48`, so `key.memory = 48 + top 77 = 48 + 72`. -/
theorem readKeyStep_plain_memory_witness :
    readKeyStep 0 0 77 (PState.fresh (40 :: List.replicate 40 97)) = .ok
      (KeyRec.mk 0 0 77 (List.replicate 40 97) (48 + top 77),
       PState.mk (MemReader.mk (40 :: List.replicate 40 97) 41) false false 0 0 0 8) :=
  (readKeyStep_plain_memory 0 0 77 (PState.fresh (40 :: List.replicate 40 97))
    (PState.mk (MemReader.mk (40 :: List.replicate 40 97) 1) false false 0 0 0 8)
    40 (List.replicate 40 97) (MemReader.mk (40 :: List.replicate 40 97) 41) 48
    (by decide) (by decide) (by decide) (by decide) (by decide) (by decide)).trans (by decide)

/-- C5 (amended): a plain-length string of at most 32 bytes matching the
integer pattern, read with accounting on, is charged exactly the parser's
current `sizeint` — which is 8 for keys and for members of string, set,
hash and sorted-set values, but 4 for members of a linked-list-encoded
value, because the list arm of the value switch sets `p.sizeint = 4`
before reading members (second conjunct; the set arm of the same switch
leaves 8, third conjunct). -/
theorem smallint_cost_is_sizeint :
    (∀ (p q : PState) (n : Nat) (data : List Nat) (r2 : MemReader),
      readLength true p = .ok ((n : Int), false, q) →
      q.r.ReadBytes (n : Int) = .ok (data, r2) →
      (n : Int) ≤ 32 → isIntMatch data = true →
      readRawBytes true p =
        .ok ((if q.skip then none else some data), (n : Int),
          { q with r := r2, memory := p.sizeint })) ∧
    (readValueBody EncodingList (PState.fresh [1, 1, 53])).map
      (fun vp => vp.1.map (fun vs => vs.map (fun v => v.m))) = .ok (some [4]) ∧
    (readValueBody EncodingSet (PState.fresh [1, 1, 53])).map
      (fun vp => vp.1.map (fun vs => vs.map (fun v => v.m))) = .ok (some [8]) := by
  refine ⟨?_, by decide, by decide⟩
  intro p q n data r2 hlen hbytes hle hint
  have hq := readLength_frame true p _ _ _ hlen
  obtain ⟨qr, qs, qc, qm, qrun, qg, qsz⟩ := q
  simp only [PState.mk.injEq] at hq
  obtain ⟨-, hqs, hqc, hqm, hqrun, hqg, hqsz⟩ := hq
  subst hqs hqc hqm hqrun hqg hqsz
  unfold readRawBytes
  rw [hlen]
  simp only [exc_bind_ok, Bool.not_false, if_true]
  unfold PState.readBytes
  rw [hbytes]
  simp only [exc_bind_ok]
  have hc : (decide ((n : Int) ≤ 32) && isIntMatch data) = true := by
    simp [hle, hint]
  simp only [hc, if_true, if_pos rfl]
  by_cases hskip : p.skip <;> simp [hskip]

/-- C5 witness: a fresh parser reading the plain one-byte string "5" with
accounting on is charged its `sizeint`, 8. -/
theorem smallint_cost_is_sizeint_witness :
    readRawBytes true (PState.fresh [1, 53]) =
      .ok ((if (PState.mk (MemReader.mk [1, 53] 1) false false 0 0 0 8).skip then none
            else some [53]), (1 : Int),
        { PState.mk (MemReader.mk [1, 53] 1) false false 0 0 0 8 with
            r := MemReader.mk [1, 53] 2, memory := (PState.fresh [1, 53]).sizeint }) :=
  smallint_cost_is_sizeint.1 (PState.fresh [1, 53])
    (PState.mk (MemReader.mk [1, 53] 1) false false 0 0 0 8) 1 [53] (MemReader.mk [1, 53] 2)
    (by decide) (by decide) (by decide) (by decide)

def zipmapKeyEnc (s : List Nat) : List Nat := s.length :: s

def zipmapValueEnc (s : List Nat) : List Nat := s.length :: 0 :: s

def zipmapPairsEnc : List (List Nat × List Nat) → List Nat
  | [] => []
  | (k, v) :: rest => zipmapKeyEnc k ++ zipmapValueEnc v ++ zipmapPairsEnc rest

def zipmapFrame (zmlen : Nat) (pairs : List (List Nat × List Nat)) : List Nat :=
  zmlen :: (zipmapPairsEnc pairs ++ [255])

def zipmapFlatten : List (List Nat × List Nat) → List (List Nat)
  | [] => []
  | (k, v) :: rest => k :: v :: zipmapFlatten rest

theorem readZipmapEntry_key_at (pre post k : List Nat) (hk : k.length < 254) :
    readZipmapEntry (MemReader.mk (pre ++ zipmapKeyEnc k ++ post) pre.length) false =
      .ok (k, MemReader.mk (pre ++ zipmapKeyEnc k ++ post) (pre.length + 1 + k.length)) := by
  unfold readZipmapEntry
  have hshape : pre ++ zipmapKeyEnc k ++ post = pre ++ k.length :: (k ++ post) := by
    simp [zipmapKeyEnc]
  rw [hshape, ReadByte_at pre (k ++ post) k.length]
  simp only [exc_bind_ok]
  rw [if_pos hk, if_neg (by simp)]
  have hshape2 : pre ++ k.length :: (k ++ post) = (pre ++ [k.length]) ++ k ++ post := by
    simp
  have hpos : pre.length + 1 = (pre ++ [k.length]).length := by simp
  rw [hshape2, hpos, readString_at (pre ++ [k.length]) k post k.length rfl]

theorem readZipmapEntry_value_at (pre post v : List Nat) (hv : v.length < 254) :
    readZipmapEntry (MemReader.mk (pre ++ zipmapValueEnc v ++ post) pre.length) true =
      .ok (v, MemReader.mk (pre ++ zipmapValueEnc v ++ post) (pre.length + 2 + v.length)) := by
  unfold readZipmapEntry
  have hshape : pre ++ zipmapValueEnc v ++ post = pre ++ v.length :: (0 :: (v ++ post)) := by
    simp [zipmapValueEnc]
  rw [hshape, ReadByte_at pre (0 :: (v ++ post)) v.length]
  simp only [exc_bind_ok]
  rw [if_pos hv]
  simp only [if_true]
  have hshape2 : pre ++ v.length :: (0 :: (v ++ post)) = (pre ++ [v.length]) ++ 0 :: (v ++ post) := by
    simp
  have hpos : pre.length + 1 = (pre ++ [v.length]).length := by simp
  rw [hshape2, hpos, ReadByte_at (pre ++ [v.length]) (v ++ post) 0]
  simp only [exc_bind_ok]
  rw [if_neg (by omega)]
  have hshape3 : (pre ++ [v.length]) ++ 0 :: (v ++ post) = ((pre ++ [v.length]) ++ [0]) ++ v ++ post := by
    simp
  have hpos3 : (pre ++ [v.length]).length + 1 = ((pre ++ [v.length]) ++ [0]).length := by simp
  rw [hshape3, hpos3, readString_at ((pre ++ [v.length]) ++ [0]) v post v.length rfl]
  have hfin : (pre ++ [v.length] ++ [0]).length = pre.length + 2 := by simp
  rw [hfin]

theorem zipmapLoop_enc :
    ∀ (pairs : List (List Nat × List Nat)) (fuel : Nat) (acc : List (List Nat)) (pre tail : List Nat),
      pairs ≠ [] →
      (∀ q ∈ pairs, q.1.length < 254 ∧ q.2.length < 254) →
      pairs.length ≤ fuel →
      zipmapLoop fuel (MemReader.mk (pre ++ zipmapPairsEnc pairs ++ 255 :: tail) pre.length) acc =
        .ok (acc ++ zipmapFlatten pairs) := by
  intro pairs
  induction pairs with
  | nil => intro _ _ _ _ h; exact absurd rfl h
  | cons kv rest ih =>
    intro fuel acc pre tail hne hbound hfuel
    obtain ⟨k, v⟩ := kv
    have hk : k.length < 254 := (hbound (k, v) (by simp)).1
    have hv : v.length < 254 := (hbound (k, v) (by simp)).2
    cases fuel with
    | zero => simp at hfuel
    | succ f =>
      have hsh1 : pre ++ zipmapPairsEnc ((k, v) :: rest) ++ 255 :: tail =
          pre ++ zipmapKeyEnc k ++ (zipmapValueEnc v ++ (zipmapPairsEnc rest ++ 255 :: tail)) := by
        simp [zipmapPairsEnc]
      unfold zipmapLoop
      rw [hsh1, readZipmapEntry_key_at pre (zipmapValueEnc v ++ (zipmapPairsEnc rest ++ 255 :: tail)) k hk]
      simp only [exc_bind_ok]
      have hpos2 : pre.length + 1 + k.length = (pre ++ zipmapKeyEnc k).length := by
        simp [zipmapKeyEnc]; omega
      have hsh2 : pre ++ zipmapKeyEnc k ++ (zipmapValueEnc v ++ (zipmapPairsEnc rest ++ 255 :: tail)) =
          (pre ++ zipmapKeyEnc k) ++ zipmapValueEnc v ++ (zipmapPairsEnc rest ++ 255 :: tail) := by
        simp
      rw [hpos2, hsh2,
        readZipmapEntry_value_at (pre ++ zipmapKeyEnc k) (zipmapPairsEnc rest ++ 255 :: tail) v hv]
      simp only [exc_bind_ok]
      have hpos3 : (pre ++ zipmapKeyEnc k).length + 2 + v.length =
          ((pre ++ zipmapKeyEnc k) ++ zipmapValueEnc v).length := by
        simp [zipmapValueEnc]; omega
      have hsh3 : (pre ++ zipmapKeyEnc k) ++ zipmapValueEnc v ++ (zipmapPairsEnc rest ++ 255 :: tail) =
          ((pre ++ zipmapKeyEnc k) ++ zipmapValueEnc v) ++ (zipmapPairsEnc rest ++ 255 :: tail) := by
        simp
      rw [hpos3, hsh3]
      cases rest with
      | nil =>
        have hterm : (((pre ++ zipmapKeyEnc k) ++ zipmapValueEnc v) ++ (zipmapPairsEnc [] ++ 255 :: tail)).getD
            ((pre ++ zipmapKeyEnc k) ++ zipmapValueEnc v).length 0 = 255 := by
          simp only [zipmapPairsEnc, List.nil_append]
          exact getD_append_at _ tail 255
        have hlt : ((pre ++ zipmapKeyEnc k) ++ zipmapValueEnc v).length <
            (((pre ++ zipmapKeyEnc k) ++ zipmapValueEnc v) ++ (zipmapPairsEnc [] ++ 255 :: tail)).length := by
          simp [zipmapPairsEnc]
        rw [hterm]
        simp [hlt, zipmapFlatten]
      | cons kv2 rest2 =>
        obtain ⟨k2, v2⟩ := kv2
        have hk2 : k2.length < 254 := (hbound (k2, v2) (by simp)).1
        have hnext : (((pre ++ zipmapKeyEnc k) ++ zipmapValueEnc v) ++ (zipmapPairsEnc ((k2, v2) :: rest2) ++ 255 :: tail)).getD
            ((pre ++ zipmapKeyEnc k) ++ zipmapValueEnc v).length 0 = k2.length := by
          have : zipmapPairsEnc ((k2, v2) :: rest2) ++ 255 :: tail =
              k2.length :: (k2 ++ (zipmapValueEnc v2 ++ (zipmapPairsEnc rest2 ++ 255 :: tail))) := by
            simp [zipmapPairsEnc, zipmapKeyEnc]
          rw [this]
          exact getD_append_at _ _ k2.length
        rw [if_neg (by
          simp only [hnext, Bool.and_eq_true, decide_eq_true_eq]
          intro hcon
          omega)]
        have hshr : ((pre ++ zipmapKeyEnc k) ++ zipmapValueEnc v) ++ (zipmapPairsEnc ((k2, v2) :: rest2) ++ 255 :: tail) =
            ((pre ++ zipmapKeyEnc k) ++ zipmapValueEnc v) ++ zipmapPairsEnc ((k2, v2) :: rest2) ++ 255 :: tail := by
          simp
        rw [hshr]
        rw [ih f (acc ++ [k] ++ [v]) ((pre ++ zipmapKeyEnc k) ++ zipmapValueEnc v) tail
          (by simp) (fun q hq => hbound q (by simp [hq])) (by simp at hfuel ⊢; omega)]
        simp [zipmapFlatten]

theorem zipmapPairsEnc_length_ge : ∀ pairs : List (List Nat × List Nat),
    pairs.length ≤ (zipmapPairsEnc pairs).length := by
  intro pairs
  induction pairs with
  | nil => simp [zipmapPairsEnc]
  | cons kv rest ih =>
    obtain ⟨k, v⟩ := kv
    simp only [zipmapPairsEnc, List.length_cons, List.length_append, zipmapKeyEnc, zipmapValueEnc]
    simp at ih ⊢
    omega

theorem readZipmap_enc (zmlen : Nat) (pairs : List (List Nat × List Nat))
    (hne : pairs ≠ []) (hbound : ∀ q ∈ pairs, q.1.length < 254 ∧ q.2.length < 254) :
    readZipmap (some (zipmapFrame zmlen pairs)) =
      .ok ((if zmlen ≤ 254 then List.replicate ((2 * zmlen) % 256) ([] : List Nat)
            else List.replicate 1024 ([] : List Nat)) ++ zipmapFlatten pairs) := by
  simp only [readZipmap, zipmapFrame]
  have hb := ReadByte_at [] (zipmapPairsEnc pairs ++ [255]) zmlen
  simp only [List.nil_append, List.length_nil, Nat.zero_add] at hb
  rw [hb]
  have hfuel : pairs.length ≤ (zmlen :: (zipmapPairsEnc pairs ++ [255])).length + 1 := by
    have := zipmapPairsEnc_length_ge pairs
    simp only [List.length_cons, List.length_append]
    omega
  have hloop := zipmapLoop_enc pairs ((zmlen :: (zipmapPairsEnc pairs ++ [255])).length + 1)
    (if zmlen ≤ 254 then List.replicate ((2 * zmlen) % 256) ([] : List Nat)
     else List.replicate 1024 ([] : List Nat)) [zmlen] [] hne hbound hfuel
  simp only [List.singleton_append, List.length_cons, List.length_append, List.length_nil,
    Nat.zero_add] at hloop ⊢
  exact hloop

theorem hashPairsLoop_replicate_cons (m : Nat) (rest : List (List Nat)) :
    hashPairsLoop (List.replicate (2 * m) [] ++ rest) [([], [])] =
      hashPairsLoop rest [([], [])] := by
  induction m with
  | zero => simp
  | succ k ih =>
    rw [show 2 * (k + 1) = 2 * k + 1 + 1 from by omega]
    rw [List.replicate_succ, List.replicate_succ]
    simp only [List.cons_append, hashPairsLoop]
    rw [show goMapSet [([], [])] [] [] = [([], [])] from by decide]
    exact ih

theorem hashPairsLoop_replicate_empty (m : Nat) (rest : List (List Nat)) :
    hashPairsLoop (List.replicate (2 * m) [] ++ rest) [] =
      hashPairsLoop rest (if m = 0 then [] else [([], [])]) := by
  cases m with
  | zero => simp
  | succ k =>
    rw [show 2 * (k + 1) = 2 * k + 1 + 1 from by omega]
    rw [List.replicate_succ, List.replicate_succ]
    simp only [List.cons_append, hashPairsLoop]
    rw [show goMapSet [] [] [] = [([], [])] from by decide]
    simp only [List.append_eq]
    rw [hashPairsLoop_replicate_cons]
    rw [if_neg (by omega : ¬ k + 1 = 0)]

/-- C2 (amended): a zipmap frame whose entries all have length below 254
decodes to the `make([]string, zmlen*2)` prefix of empty strings followed by
exactly the frame's entries in order — the stated length rules and the 0xff
stop are honoured, but the delivered strings are NOT exactly the frame's
entries: `(2*zmlen) mod 256` empty strings stand before them, and (for
`zmlen` between 1 and 127) the Hash callback's map is the frame's pairs
inserted into a map that already holds the spurious pair "" -> "". -/
theorem zipmap_decode_exact_with_empty_pad (zmlen : Nat) (pairs : List (List Nat × List Nat))
    (hne : pairs ≠ []) (hbound : ∀ q ∈ pairs, q.1.length < 254 ∧ q.2.length < 254) :
    readZipmap (some (zipmapFrame zmlen pairs)) =
      .ok ((if zmlen ≤ 254 then List.replicate ((2 * zmlen) % 256) ([] : List Nat)
            else List.replicate 1024 ([] : List Nat)) ++ zipmapFlatten pairs) ∧
    (zmlen ≤ 127 →
      hashFromZipmap (some (zipmapFrame zmlen pairs)) =
        hashPairsLoop (zipmapFlatten pairs)
          (if zmlen = 0 then [] else [([], [])])) := by
  have hrz := readZipmap_enc zmlen pairs hne hbound
  refine ⟨hrz, fun h127 => ?_⟩
  simp only [hashFromZipmap]
  rw [hrz, exc_bind_ok]
  rw [if_pos (by omega : zmlen ≤ 254)]
  rw [show (2 * zmlen) % 256 = 2 * zmlen from by omega]
  exact hashPairsLoop_replicate_empty zmlen (zipmapFlatten pairs)

theorem zipmap_decode_exact_with_empty_pad_witness :
    readZipmap (some (zipmapFrame 1 [([97], [98])])) =
      .ok ((if (1 : Nat) ≤ 254 then List.replicate ((2 * 1) % 256) ([] : List Nat)
            else List.replicate 1024 ([] : List Nat)) ++ zipmapFlatten [([97], [98])]) ∧
    hashFromZipmap (some (zipmapFrame 1 [([97], [98])])) =
      hashPairsLoop (zipmapFlatten [([97], [98])])
        (if (1 : Nat) = 0 then [] else [([], [])]) :=
  ⟨(zipmap_decode_exact_with_empty_pad 1 [([97], [98])] (by decide) (by decide)).1,
   (zipmap_decode_exact_with_empty_pad 1 [([97], [98])] (by decide) (by decide)).2 (by decide)⟩

/-- The six one-byte tokens of the `Parser.Parse` dispatch switch. -/
def tokenAUX : Nat := 0xFA

def tokenResize : Nat := 0xFB

def tokenExpMSec : Nat := 0xFC

def tokenExpSec : Nat := 0xFD

def tokenDB : Nat := 0xFE

def tokenEOF : Nat := 0xFF

/-- A filter's three driver-level callbacks (`Database`, `Type`, `Key` of
the Go `Filter` interface): each returns `true` to stop the parse. The
value-level callbacks (`Set`, `List`, `Hash`, `String`, `SortedSet`) never
return anything, so a delivered work item is recorded but carries no abort
flag. -/
structure SimFilter where
  fDB : Int → Bool
  fType : Nat → Bool
  fKey : KeyRec → Bool

/-- One filter-callback firing, in delivery order: `db`/`typ`/`key` are the
driver callbacks, `rt` is a work item handed to `filterRedisType` (whose
decompressed values reach `Set`/`List`/`Hash`/`String`/`SortedSet`). -/
inductive PEvent where
  | db (num : Int)
  | typ (enc : Nat)
  | key (k : KeyRec)
  | rt (k : KeyRec) (vals : List WVal)
deriving DecidableEq

/-- Whether the callback this event stands for returns `true` (asks the
parse to stop). `rt` deliveries have no return value, hence `false`. -/
def abortEvent (f : SimFilter) : PEvent → Bool
  | .db num => f.fDB num
  | .typ enc => f.fType enc
  | .key k => f.fKey k
  | .rt _ _ => false

/-- The shared shape of Go `Parser.database`/`typ`/`key`: when the skip bit
is clear the callback fires (the event is appended to the trace) and its
return value is reported; when set, nothing fires and `false` is reported. -/
def fireCheck (f : SimFilter) (e : PEvent) (skip : Bool) (evs : List PEvent) :
    Bool × List PEvent :=
  if skip then (false, evs) else (abortEvent f e, evs ++ [e])

/-- How `Parser.Parse` came to return `nil`: the `tokenEOF` arm, a driver
callback returning `true`, or the unknown-encoding `default` arm. -/
inductive POutcome where
  | okEOF
  | aborted
  | unknownEnc
deriving DecidableEq

/-- Whether the event is one of the three driver-level callbacks
(`Database`/`Type`/`Key`, fired inline by the dispatch loop) as opposed to
a value-level delivery (`rt`, whose `Set`/`List`/`Hash`/`String`/
`SortedSet` callbacks a `filterWorker` goroutine fires). -/
def driverEvent : PEvent → Bool
  | .db _ => true
  | .typ _ => true
  | .key _ => true
  | .rt _ _ => false

/-- The value callbacks the deferred `close` + `Wait` of `Parser.Parse`
makes `filterWorker` fire for the work items still sitting in the filter
channel when `Parse` returns, in channel order. -/
def drainQ (q : List (KeyRec × List WVal)) : List PEvent :=
  q.map (fun kv => PEvent.rt kv.1 kv.2)

/-- The dispatch loop of Go `Parser.Parse` after the header (callbacks
delivered in order, so the trace of fired callbacks is data): `ds` is
`defaultStrategy`, `exp`/`db` the loop-carried expiry and `currentKey.DB`,
`evs` the callbacks fired so far, and `q` the filter channel's buffered
content — `filterRedisType` does not run the value callbacks, it enqueues
the work item (the channel holds up to 512 of them, and the scheduler may
leave every `filterWorker` goroutine idle while the loop runs, which is
the schedule embedded here); the deferred `close`/`Wait` then makes the
workers drain the queue after `Parse` returns, on every exit path —
normal, aborted or failed — so each exit appends `drainQ q` to the trace.
Each arm follows the Go switch: `tokenDB` restores the default strategy,
reads a length and fires `Database`; `tokenAUX`/`tokenResize` read their
payload under `skipStage(SkipMeta, SkipAll)`; the expiry tokens either
discard or read the stamp into `exp`; `tokenEOF` returns; the default arm
fires `Type`, reads the key (`readKeyStep`), fires `Key`, resets `exp`,
reads the value body and hands the work item to `filterRedisType` (which
enqueues nothing when `skipStage(SkipAll)` hits), then `clearstate` and
the next round. The fuel argument only rules out the infinite loop a
diverging reader would be. -/
def parseSim (f : SimFilter) : Nat → Nat → Int → Int → PState → List PEvent →
    List (KeyRec × List WVal) → Except RErr POutcome × List PEvent
  | 0, _, _, _, _, evs, q => (.error .fuelExhausted, evs ++ drainQ q)
  | fuel + 1, ds, exp, db, p, evs, q =>
    match p.readByte with
    | .error e => (.error e, evs ++ drainQ q)
    | .ok (b, p) =>
      if b = tokenDB then
        match readLength false (p.setStrategy ds) with
        | .error e => (.error e, evs ++ drainQ q)
        | .ok (num, _, p) =>
          let (abort, evs) := fireCheck f (.db num) p.skip evs
          if abort then (.ok .aborted, evs ++ drainQ q)
          else parseSim f fuel ds exp num p.clearstate evs q
      else if b = tokenAUX then
        let (_, p) := p.skipStage [SkipMeta, SkipAll]
        match readRawString false p with
        | .error e => (.error e, evs ++ drainQ q)
        | .ok (_, p) =>
          match readRawString false p with
          | .error e => (.error e, evs ++ drainQ q)
          | .ok (_, p) =>
            let (_, p) := p.skipStage [SkipMeta, SkipAll]
            parseSim f fuel ds exp db p.clearstate evs q
      else if b = tokenResize then
        match readLength false p with
        | .error e => (.error e, evs ++ drainQ q)
        | .ok (_, _, p) =>
          match readLength false p with
          | .error e => (.error e, evs ++ drainQ q)
          | .ok (_, _, p) =>
            let (_, p) := p.skipStage [SkipMeta, SkipAll]
            parseSim f fuel ds exp db p.clearstate evs q
      else if b = tokenExpMSec then
        let (hit, p) := p.skipStage [SkipExpiry, SkipAll]
        if hit then parseSim f fuel ds exp db (p.discard 8).clearstate evs q
        else
          match p.little64 with
          | .error e => (.error e, evs ++ drainQ q)
          | .ok (e64, p) => parseSim f fuel ds e64 db p.clearstate evs q
      else if b = tokenExpSec then
        let (hit, p) := p.skipStage [SkipExpiry, SkipAll]
        if hit then parseSim f fuel ds exp db (p.discard 4).clearstate evs q
        else
          match p.little32 with
          | .error e => (.error e, evs ++ drainQ q)
          | .ok (e32, p) => parseSim f fuel ds e32 db p.clearstate evs q
      else if b = tokenEOF then (.ok .okEOF, evs ++ drainQ q)
      else
        let (_, p) := p.skipStage [SkipAll]
        let (abortT, evs) := fireCheck f (.typ b) p.skip evs
        if abortT then (.ok .aborted, evs ++ drainQ q)
        else
          match readKeyStep b db exp p with
          | .error e => (.error e, evs ++ drainQ q)
          | .ok (krec, p) =>
            let (abortK, evs) := fireCheck f (.key krec) p.skip evs
            if abortK then (.ok .aborted, evs ++ drainQ q)
            else
              let (_, p) := p.skipStage [SkipValue, SkipAll]
              match readValueBody b p with
              | .error e => (.error e, evs ++ drainQ q)
              | .ok (none, _) => (.ok .unknownEnc, evs ++ drainQ q)
              | .ok (some vals, p) =>
                let (hit, p) := p.skipStage [SkipAll]
                parseSim f fuel ds (-1) db p.clearstate evs
                  (if hit then q else q ++ [(krec, vals)])

theorem drainQ_not_driver (q : List (KeyRec × List WVal)) :
    ∀ x ∈ drainQ q, driverEvent x = false := by
  intro x hx
  simp only [drainQ, List.mem_map] at hx
  obtain ⟨kv, _, rfl⟩ := hx
  rfl

theorem drainQ_no_abort (f : SimFilter) (q : List (KeyRec × List WVal)) :
    ∀ x ∈ drainQ q, abortEvent f x = false := by
  intro x hx
  simp only [drainQ, List.mem_map] at hx
  obtain ⟨kv, _, rfl⟩ := hx
  rfl

theorem no_abort_in_trace (f : SimFilter) (evs : List PEvent)
    (q : List (KeyRec × List WVal))
    (hpre : ∀ x ∈ evs, abortEvent f x = false)
    (hab : ∃ x ∈ evs ++ drainQ q, abortEvent f x = true) : False := by
  obtain ⟨x, hx, hxt⟩ := hab
  rcases List.mem_append.mp hx with h | h
  · rw [hpre x h] at hxt
    exact Bool.false_ne_true hxt
  · rw [drainQ_no_abort f q x h] at hxt
    exact Bool.false_ne_true hxt

theorem hpre_extend (f : SimFilter) (evs : List PEvent) (e : PEvent)
    (hpre : ∀ x ∈ evs, abortEvent f x = false) (he : abortEvent f e = false) :
    ∀ x ∈ evs ++ [e], abortEvent f x = false := by
  intro x hx
  rcases List.mem_append.mp hx with h | h
  · exact hpre x h
  · rcases List.mem_singleton.mp h with rfl
    exact he

theorem append_singleton_append {α : Type} (xs : List α) (e : α) (ys : List α) :
    (xs ++ [e]) ++ ys = xs ++ e :: ys := by simp

theorem fireCheck_stop (f : SimFilter) (e : PEvent) (skip : Bool)
    (evs evs2 : List PEvent) (h : fireCheck f e skip evs = (true, evs2)) :
    abortEvent f e = true ∧ evs2 = evs ++ [e] := by
  unfold fireCheck at h
  split at h
  · cases h
  · obtain ⟨h1, h2⟩ := Prod.mk.injEq .. ▸ h
    exact ⟨h1, h2.symm⟩

theorem fireCheck_keep (f : SimFilter) (e : PEvent) (skip : Bool)
    (evs evs2 : List PEvent) (hpre : ∀ x ∈ evs, abortEvent f x = false)
    (h : fireCheck f e skip evs = (false, evs2)) :
    ∀ x ∈ evs2, abortEvent f x = false := by
  unfold fireCheck at h
  split at h
  · obtain ⟨h1, h2⟩ := Prod.mk.injEq .. ▸ h
    exact h2 ▸ hpre
  · obtain ⟨h1, h2⟩ := Prod.mk.injEq .. ▸ h
    exact h2 ▸ hpre_extend f evs e hpre h1

/-- C9 (amended): abort semantics of the dispatch loop, over the embedding
with the filter channel as a queue. If one of the filter's `Database`,
`Type` or `Key` callbacks returns `true` during a run (the trace `res`
holds an event whose callback answers `true`), then the parse stopped
successfully — the result is `Except.ok .aborted`, never an error — and no
further DRIVER callback fires after the returning one: the trace past that
event holds only value deliveries, every driver callback before it having
answered `false`. Value callbacks are not covered, and cannot be: work
items queued before the abort are drained afterwards (see the
counterexample), so the claim's "no further filter callbacks fire" is
false of the pipeline. -/
theorem driver_abort_ends_driver_callbacks (f : SimFilter) :
    ∀ (fuel ds : Nat) (exp db : Int) (p : PState) (evs : List PEvent)
      (q : List (KeyRec × List WVal)) (res : List PEvent)
      (r : Except RErr POutcome),
      parseSim f fuel ds exp db p evs q = (r, res) →
      (∀ x ∈ evs, abortEvent f x = false) →
      (∃ x ∈ res, abortEvent f x = true) →
      r = .ok .aborted ∧
      ∃ pre e post, res = pre ++ e :: post ∧ abortEvent f e = true ∧
        (∀ x ∈ pre, abortEvent f x = false) ∧
        ∀ x ∈ post, driverEvent x = false := by
  intro fuel
  induction fuel with
  | zero =>
    intro ds exp db p evs q res r hrun hpre hab
    unfold parseSim at hrun
    cases hrun
    exact (no_abort_in_trace f evs q hpre hab).elim
  | succ n ih =>
    intro ds exp db p evs q res r hrun hpre hab
    unfold parseSim at hrun
    split at hrun
    · -- ReadByte error
      cases hrun
      exact (no_abort_in_trace f evs q hpre hab).elim
    · -- ReadByte ok (b, p1)
      rename_i x b p1 hb
      split at hrun
      · -- b = tokenDB
        rename_i h1
        split at hrun
        · -- readLength error
          cases hrun
          exact (no_abort_in_trace f evs q hpre hab).elim
        · -- readLength ok
          rename_i num wenc p2 hl
          split at hrun
          rename_i abort evs2 hfc
          cases abort with
          | false =>
            rw [if_neg Bool.false_ne_true] at hrun
            exact ih ds exp num p2.clearstate evs2 q res r hrun
              (fireCheck_keep f (PEvent.db num) p2.skip evs evs2 hpre hfc) hab
          | true =>
            rw [if_pos rfl] at hrun
            cases hrun
            obtain ⟨ha, hres⟩ := fireCheck_stop f (PEvent.db num) p2.skip evs evs2 hfc
            refine ⟨rfl, evs, PEvent.db num, drainQ q, ?_, ha, hpre, drainQ_not_driver q⟩
            rw [hres]
            exact append_singleton_append evs (PEvent.db num) (drainQ q)
      · -- b ≠ tokenDB
        split at hrun
        · -- b = tokenAUX
          split at hrun
          rename_i hit1 p2 hsk1
          split at hrun
          · cases hrun
            exact (no_abort_in_trace f evs q hpre hab).elim
          · rename_i s1 p3 hr1
            split at hrun
            · cases hrun
              exact (no_abort_in_trace f evs q hpre hab).elim
            · rename_i s2 p4 hr2
              split at hrun
              rename_i hit2 p5 hsk2
              exact ih ds exp db p5.clearstate evs q res r hrun hpre hab
        · -- b ≠ tokenAUX
          split at hrun
          · -- b = tokenResize
            split at hrun
            · cases hrun
              exact (no_abort_in_trace f evs q hpre hab).elim
            · rename_i sz1 w1 p2 hl1
              split at hrun
              · cases hrun
                exact (no_abort_in_trace f evs q hpre hab).elim
              · rename_i sz2 w2 p3 hl2
                split at hrun
                rename_i hit1 p4 hsk1
                exact ih ds exp db p4.clearstate evs q res r hrun hpre hab
          · -- b ≠ tokenResize
            split at hrun
            · -- b = tokenExpMSec
              split at hrun
              rename_i hit1 p2 hsk1
              split at hrun
              · exact ih ds exp db ((p2.discard 8).clearstate) evs q res r hrun hpre hab
              · split at hrun
                · cases hrun
                  exact (no_abort_in_trace f evs q hpre hab).elim
                · rename_i e64 p3 h64
                  exact ih ds e64 db p3.clearstate evs q res r hrun hpre hab
            · -- b ≠ tokenExpMSec
              split at hrun
              · -- b = tokenExpSec
                split at hrun
                rename_i hit1 p2 hsk1
                split at hrun
                · exact ih ds exp db ((p2.discard 4).clearstate) evs q res r hrun hpre hab
                · split at hrun
                  · cases hrun
                    exact (no_abort_in_trace f evs q hpre hab).elim
                  · rename_i e32 p3 h32
                    exact ih ds e32 db p3.clearstate evs q res r hrun hpre hab
              · -- b ≠ tokenExpSec
                split at hrun
                · -- b = tokenEOF
                  cases hrun
                  exact (no_abort_in_trace f evs q hpre hab).elim
                · -- default: type / key / value
                  split at hrun
                  rename_i hit0 p2 hsk0
                  split at hrun
                  rename_i abortT evsT hfcT
                  cases abortT with
                  | false =>
                    rw [if_neg Bool.false_ne_true] at hrun
                    have hpreT := fireCheck_keep f (PEvent.typ b) p2.skip evs evsT hpre hfcT
                    split at hrun
                    · cases hrun
                      exact (no_abort_in_trace f evsT q hpreT hab).elim
                    · rename_i krec p3 hks
                      split at hrun
                      rename_i abortK evsK hfcK
                      cases abortK with
                      | false =>
                        rw [if_neg Bool.false_ne_true] at hrun
                        have hpreK := fireCheck_keep f (PEvent.key krec) p3.skip evsT evsK hpreT hfcK
                        split at hrun
                        rename_i hitV p4 hskV
                        split at hrun
                        · cases hrun
                          exact (no_abort_in_trace f evsK q hpreK hab).elim
                        · cases hrun
                          exact (no_abort_in_trace f evsK q hpreK hab).elim
                        · rename_i vals p5 hvb
                          split at hrun
                          rename_i hitR p6 hskR
                          exact ih ds (-1) db p6.clearstate evsK _ res r hrun hpreK hab
                      | true =>
                        rw [if_pos rfl] at hrun
                        cases hrun
                        obtain ⟨ha, hres⟩ := fireCheck_stop f (PEvent.key krec) p3.skip evsT evsK hfcK
                        refine ⟨rfl, evsT, PEvent.key krec, drainQ q, ?_, ha, hpreT, drainQ_not_driver q⟩
                        rw [hres]
                        exact append_singleton_append evsT (PEvent.key krec) (drainQ q)
                  | true =>
                    rw [if_pos rfl] at hrun
                    cases hrun
                    obtain ⟨ha, hres⟩ := fireCheck_stop f (PEvent.typ b) p2.skip evs evsT hfcT
                    refine ⟨rfl, evs, PEvent.typ b, drainQ q, ?_, ha, hpre, drainQ_not_driver q⟩
                    rw [hres]
                    exact append_singleton_append evs (PEvent.typ b) (drainQ q)

/-- A filter whose three driver callbacks always ask to stop. -/
def abortAllFilter : SimFilter :=
  SimFilter.mk (fun _ => true) (fun _ => true) (fun _ => true)

theorem driver_abort_ends_driver_callbacks_witness :
    (Except.ok POutcome.aborted : Except RErr POutcome) = .ok .aborted ∧
    ∃ pre e post, [PEvent.db 0] = pre ++ e :: post ∧
      abortEvent abortAllFilter e = true ∧
      (∀ x ∈ pre, abortEvent abortAllFilter x = false) ∧
      ∀ x ∈ post, driverEvent x = false :=
  driver_abort_ends_driver_callbacks abortAllFilter 1 0 (-1) 0
    (PState.fresh [254, 0]) [] [] [PEvent.db 0] (.ok .aborted)
    (by decide) (by decide) ⟨PEvent.db 0, by decide, by decide⟩

/-- A filter whose `Database` callback asks to stop and whose other driver
callbacks do not. -/
def dbAbortFilter : SimFilter :=
  SimFilter.mk (fun _ => true) (fun _ => false) (fun _ => false)

/-- C9 counterexample: a snapshot holding one string record ("a" -> "b",
bytes 00 01 'a' 01 'b') and then a database selector (FE 00) whose
`Database` callback returns `true`. The work item of the record sits in
the filter channel when the abort happens, and the deferred `close`/`Wait`
drains it afterwards: the parse returns success and the callback trace is
Type, Key, Database, then the record's value delivery — its `String`
callback fires AFTER the `Database` callback returned `true` (third map:
the trailing callback is not a driver one), so "no further filter
callbacks fire after the returning one" is false of the pipeline. -/
theorem value_callback_after_abort :
    (parseSim dbAbortFilter 3 0 (-1) 0
        (PState.fresh [0, 1, 97, 1, 98, 254, 0]) [] []).1 = .ok .aborted ∧
    ((parseSim dbAbortFilter 3 0 (-1) 0
        (PState.fresh [0, 1, 97, 1, 98, 254, 0]) [] []).2).map
      (abortEvent dbAbortFilter) = [false, false, true, false] ∧
    ((parseSim dbAbortFilter 3 0 (-1) 0
        (PState.fresh [0, 1, 97, 1, 98, 254, 0]) [] []).2).map
      driverEvent = [true, true, true, false] := by
  refine ⟨by decide, by decide, by decide⟩
